import Mathlib

/-!
Verification development for a four-player tile-rummy engine.

The definitions below are a shallow embedding of the TypeScript sources:
`types.ts`, `tiles.ts`, `validation.ts`, `gameState.ts` (namespace `Engine`)
and `ai.ts` (namespace `AI`).  JavaScript numbers used for tile faces and
point totals are embedded as `Int`; array indices and counters as `Nat`.
Randomness (`Math.random` in the Fisher-Yates shuffle) is modelled by an
injected `rand : Nat → Nat` source, as the design requires an injectable
randomness/identity source.  Set identifiers produced with
`Date.now()`/`Math.random()` are modelled by an injected fresh-id parameter
where an identifier is later observed (staged sets, which are looked up by
id), and by the constant `genSetId` where the produced id is never read
again (board sets, whose ids are write-only in the engine).
-/

set_option maxHeartbeats 1000000

namespace TileRummy

/-- Tile colors: the four suits plus the joker marker (`types.ts`). -/
inductive TileColor where
  | red
  | blue
  | yellow
  | black
  | joker
deriving DecidableEq, Repr

/-- A tile: identity, color, face number (1-13 suited, 0 joker), joker flag. -/
structure Tile where
  id : Nat
  color : TileColor
  number : Int
  isJoker : Bool
deriving DecidableEq, Repr

instance : Inhabited Tile := ⟨{ id := 0, color := .joker, number := 0, isJoker := false }⟩

/-- Classification of a staged set (`types.ts` / `validation.ts`). -/
inductive SetType where
  | run
  | group
  | invalid
deriving DecidableEq, Repr

/-- A set of tiles committed to the board. -/
structure TileSet where
  id : Nat
  tiles : List Tile
deriving DecidableEq, Repr

/-- Provenance of a staged set's tiles (`sourceInfo` in `types.ts`). -/
structure SourceInfo where
  fromRack : List Nat
  fromBoard : List Nat
deriving DecidableEq, Repr

/-- A candidate set pending commit. -/
structure StagedSet where
  id : Nat
  tiles : List Tile
  isValid : Bool
  type : SetType
  value : Int
  sourceInfo : SourceInfo
deriving DecidableEq, Repr

/-- A player (`types.ts`). -/
structure Player where
  id : Nat
  name : String
  tiles : List Tile
  hasPlayedInitialMeld : Bool
  isAI : Bool
deriving DecidableEq, Repr

instance : Inhabited Player :=
  ⟨{ id := 0, name := "", tiles := [], hasPlayedInitialMeld := false, isAI := false }⟩

inductive GamePhase where
  | playing
  | ended
deriving DecidableEq, Repr

inductive TurnState where
  | selecting
  | staging
  | aiThinking
deriving DecidableEq, Repr

/-- The aggregate game state (`types.ts`). -/
structure GameState where
  players : List Player
  currentPlayerIndex : Nat
  board : List TileSet
  pool : List Tile
  selectedTiles : List Tile
  selectedBoardTiles : List Tile
  stagedSets : List StagedSet
  gamePhase : GamePhase
  winner : Option Player
  turnState : TurnState
  boardBeforeTurn : List TileSet
  rackBeforeTurn : List Tile
  pointsPlayedThisTurn : Int
  consecutivePasses : Nat
deriving DecidableEq, Repr

/-! ### tiles.ts -/

/-- The four suit colors, in source order. -/
def COLORS : List TileColor := [.red, .blue, .yellow, .black]

/-- `createTilePool`: 2 complete suits of 13 numbers in 4 colors plus 2 jokers,
identified sequentially (106 tiles, ids 0-105). -/
def createTilePool : List Tile :=
  ((List.range 2).flatMap fun s =>
    (List.range 4).flatMap fun ci =>
      (List.range 13).map fun k =>
        { id := s * 52 + ci * 13 + k
          color := COLORS.getD ci .joker
          number := (k : Int) + 1
          isJoker := false })
  ++ [{ id := 104, color := .joker, number := 0, isJoker := true },
      { id := 105, color := .joker, number := 0, isJoker := true }]

/-- One Fisher-Yates swap: exchange the entries at positions `i` and `j`. -/
def swapNth (l : List Tile) (i j : Nat) : List Tile :=
  match l[i]?, l[j]? with
  | some a, some b => (l.set i b).set j a
  | _, _ => l

/-- The Fisher-Yates loop of `shuffleTiles`: iterate `i` from `fuel` down to 1,
swapping position `i` with position `rand i % (i+1)` (the injected `rand`
models `Math.floor(Math.random() * (i + 1))`). -/
def shuffleAux (rand : Nat → Nat) : Nat → List Tile → List Tile
  | 0, l => l
  | i + 1, l => shuffleAux rand i (swapNth l (i + 1) (rand (i + 1) % (i + 2)))

/-- `shuffleTiles`: Fisher-Yates shuffle with injected randomness. -/
def shuffleTiles (rand : Nat → Nat) (tiles : List Tile) : List Tile :=
  shuffleAux rand (tiles.length - 1) tiles

/-- `dealTiles`: split the first `count` tiles as dealt, keep the rest. -/
def dealTiles (pool : List Tile) (count : Nat) : List Tile × List Tile :=
  (pool.take count, pool.drop count)

/-- Color precedence used by the rack sort (`colorOrder` in `tiles.ts`). -/
def colorOrder : TileColor → Nat
  | .red => 0
  | .blue => 1
  | .yellow => 2
  | .black => 3
  | .joker => 4

/-- The rack ordering: by color precedence, then by number. -/
def tileColorNumLe (a b : Tile) : Prop :=
  colorOrder a.color < colorOrder b.color ∨
    (colorOrder a.color = colorOrder b.color ∧ a.number ≤ b.number)

instance : DecidableRel tileColorNumLe := fun a b => by
  unfold tileColorNumLe; infer_instance

instance : IsTotal Tile tileColorNumLe := by
  constructor
  intro a b
  unfold tileColorNumLe
  omega

instance : IsTrans Tile tileColorNumLe := by
  constructor
  intro a b c hab hbc
  unfold tileColorNumLe at *
  omega

/-- `sortTilesByColorAndNumber`: stable sort by (color precedence, number). -/
def sortTilesByColorAndNumber (tiles : List Tile) : List Tile :=
  List.insertionSort tileColorNumLe tiles

/-! ### validation.ts -/

/-- Ordering by face number (the `(a, b) => a.number - b.number` comparator). -/
def numLe (a b : Tile) : Prop := a.number ≤ b.number

instance : DecidableRel numLe := fun a b => by
  unfold numLe; infer_instance

instance : IsTotal Tile numLe := by
  constructor; intro a b; unfold numLe; omega

instance : IsTrans Tile numLe := by
  constructor; intro a b c hab hbc; unfold numLe at *; omega

/-- Stable sort of tiles by number (the `[...ts].sort((a,b) => a.number - b.number)`). -/
def sortByNumber (tiles : List Tile) : List Tile :=
  List.insertionSort numLe tiles

/-- `new Set(xs).size`: the number of distinct elements. -/
def countDistinct {α : Type} [DecidableEq α] (l : List α) : Nat :=
  l.dedup.length

/-- The adjacent-duplicate scan over a sorted tile list. -/
def hasAdjacentDupNumber : List Tile → Bool
  | a :: b :: rest => a.number == b.number || hasAdjacentDupNumber (b :: rest)
  | _ => false

/-- Sum of `sorted[i].number - sorted[i-1].number - 1` over consecutive pairs. -/
def gapsSum : List Tile → Int
  | a :: b :: rest => (b.number - a.number - 1) + gapsSum (b :: rest)
  | _ => 0

/-- `sorted[0].number` (0 when empty; only used on nonempty lists). -/
def firstNumber : List Tile → Int
  | [] => 0
  | t :: _ => t.number

/-- `sorted[sorted.length - 1].number` (0 when empty). -/
def lastNumber (l : List Tile) : Int :=
  (l.getLastD default).number

/-- `isValidRun` from `validation.ts`. -/
def isValidRun (tiles : List Tile) : Bool :=
  if tiles.length < 3 then false
  else
    let jokers := tiles.filter (·.isJoker)
    let regularTiles := tiles.filter (fun t => !t.isJoker)
    if regularTiles.length = 0 then false
    else if countDistinct (regularTiles.map (·.color)) ≠ 1 then false
    else
      let sorted := sortByNumber regularTiles
      if hasAdjacentDupNumber sorted then false
      else
        let startNum := firstNumber sorted
        let endNum := lastNumber sorted
        let jokersForGaps := gapsSum sorted
        if jokersForGaps > (jokers.length : Int) then false
        else
          let jokersToExtend := (jokers.length : Int) - jokersForGaps
          let baseLength := endNum - startNum + 1
          let neededLength := (tiles.length : Int)
          let extensionNeeded := neededLength - baseLength
          if extensionNeeded ≠ jokersToExtend then false
          else
            let maxExtendBefore := startNum - 1
            let maxExtendAfter := 13 - endNum
            if jokersToExtend > maxExtendBefore + maxExtendAfter then false
            else true

/-- `isValidGroup` from `validation.ts`. -/
def isValidGroup (tiles : List Tile) : Bool :=
  if tiles.length < 3 ∨ tiles.length > 4 then false
  else
    let regularTiles := tiles.filter (fun t => !t.isJoker)
    if regularTiles.length = 0 then false
    else if countDistinct (regularTiles.map (·.number)) ≠ 1 then false
    else if countDistinct (regularTiles.map (·.color)) ≠ regularTiles.length then false
    else true

/-- `isValidSet`: a valid run or a valid group. -/
def isValidSet (tiles : List Tile) : Bool :=
  isValidRun tiles || isValidGroup tiles

/-- `for (n = a; n <= b; n++) total += n`. -/
def intRangeSum (a b : Int) : Int :=
  ((List.range (b + 1 - a).toNat).map fun k => a + (k : Int)).sum

/-- `calculateRunValue` from `validation.ts`. -/
def calculateRunValue (tiles : List Tile) : Int :=
  let regularTiles := tiles.filter (fun t => !t.isJoker)
  let jokerCount : Int := (tiles.length : Int) - (regularTiles.length : Int)
  if regularTiles.length = 0 then 0
  else
    let sorted := sortByNumber regularTiles
    let minNum := firstNumber sorted
    let maxNum := lastNumber sorted
    let jokersForGaps := gapsSum sorted
    let jokersToExtend := jokerCount - jokersForGaps
    let maxExtendBefore := minNum - 1
    let extendBefore := min jokersToExtend maxExtendBefore
    let extendAfter := jokersToExtend - extendBefore
    intRangeSum (minNum - extendBefore) (maxNum + extendAfter)

/-- `calculateGroupValue` from `validation.ts`. -/
def calculateGroupValue (tiles : List Tile) : Int :=
  let regularTiles := tiles.filter (fun t => !t.isJoker)
  match regularTiles with
  | [] => 0
  | t :: _ => t.number * (tiles.length : Int)

/-- `calculateSetValue` from `validation.ts`. -/
def calculateSetValue (tiles : List Tile) : Int :=
  if isValidRun tiles then calculateRunValue tiles
  else if isValidGroup tiles then calculateGroupValue tiles
  else 0

/-- `validateBoard`: every board set is individually valid. -/
def validateBoard (sets : List TileSet) : Bool :=
  sets.all fun ts => isValidSet ts.tiles

/-- `getTotalBoardValue` from `validation.ts`. -/
def getTotalBoardValue (sets : List TileSet) : Int :=
  sets.foldl (fun total ts => total + calculateSetValue ts.tiles) 0

/-- `ValidationResult` from `validation.ts`. -/
structure ValidationResult where
  isValid : Bool
  type : SetType
  value : Int
deriving DecidableEq, Repr

/-- `validateTileSet` from `validation.ts`. -/
def validateTileSet (tiles : List Tile) : ValidationResult :=
  if isValidRun tiles then
    { isValid := true, type := .run, value := calculateSetValue tiles }
  else if isValidGroup tiles then
    { isValid := true, type := .group, value := calculateSetValue tiles }
  else
    { isValid := false, type := .invalid, value := 0 }

/-! ### gameState.ts (namespace `Engine`) -/

/-- `players.map((player, index) => ...)`: a map that also passes the index. -/
def mapIdxFrom {α β : Type} (f : Nat → α → β) : Nat → List α → List β
  | _, [] => []
  | i, x :: xs => f i x :: mapIdxFrom f (i + 1) xs

/-- Index-passing map starting at index 0. -/
def mapWithIndex {α β : Type} (f : Nat → α → β) (l : List α) : List β :=
  mapIdxFrom f 0 l

/-- Identifier used for generated board / restored sets.  In the source these
ids come from `Date.now()`/`Math.random()` but are never read back by the
engine, so a constant models them without behavioral difference. -/
def genSetId : Nat := 0

namespace Engine

/-- Player display names from `createInitialGameState`. -/
def playerName (i : Nat) : String :=
  if i = 0 then "You" else "AI " ++ toString i

/-- `createInitialGameState`: shuffle the 106-tile pool with the injected
randomness, deal 14 tiles to each of 4 players, keep the remainder as pool. -/
def createInitialGameState (rand : Nat → Nat) : GameState :=
  let pool := shuffleTiles rand createTilePool
  let step := fun (acc : List Player × List Tile) (i : Nat) =>
    let dealt := dealTiles acc.2 14
    (acc.1 ++ [{ id := i, name := playerName i,
                 tiles := sortTilesByColorAndNumber dealt.1,
                 hasPlayedInitialMeld := false, isAI := i ≠ 0 }],
      dealt.2)
  let pr := (List.range 4).foldl step ([], pool)
  { players := pr.1
    currentPlayerIndex := 0
    board := []
    pool := pr.2
    selectedTiles := []
    selectedBoardTiles := []
    stagedSets := []
    gamePhase := .playing
    winner := none
    turnState := .selecting
    boardBeforeTurn := []
    rackBeforeTurn := []
    pointsPlayedThisTurn := 0
    consecutivePasses := 0 }

/-- `state.players[state.currentPlayerIndex]`. -/
def currentPlayerOf (state : GameState) : Player :=
  state.players.getD state.currentPlayerIndex default

/-- `drawTile` from `gameState.ts`. -/
def drawTile (state : GameState) : GameState :=
  match state.pool with
  | [] => state
  | drawnTile :: remainingPool =>
    let updatedPlayers := mapWithIndex (fun index player =>
      if index = state.currentPlayerIndex then
        { player with tiles := sortTilesByColorAndNumber (player.tiles ++ [drawnTile]) }
      else player) state.players
    { state with
        players := updatedPlayers
        pool := remainingPool
        selectedTiles := []
        stagedSets := [] }

/-- `selectTile` from `gameState.ts`. -/
def selectTile (state : GameState) (tile : Tile) : GameState :=
  let isSelected := state.selectedTiles.any fun t => t.id == tile.id
  if isSelected then
    { state with selectedTiles := state.selectedTiles.filter fun t => t.id != tile.id }
  else
    { state with selectedTiles := state.selectedTiles ++ [tile] }

/-- `selectBoardTile` from `gameState.ts` (gated on the initial meld). -/
def selectBoardTile (state : GameState) (tile : Tile) : GameState :=
  if (currentPlayerOf state).hasPlayedInitialMeld = false then state
  else
    let isSelected := state.selectedBoardTiles.any fun t => t.id == tile.id
    if isSelected then
      { state with
          selectedBoardTiles := state.selectedBoardTiles.filter fun t => t.id != tile.id }
    else
      { state with selectedBoardTiles := state.selectedBoardTiles ++ [tile] }

/-- `determineStagedSetType` from `gameState.ts`. -/
def determineStagedSetType (tiles : List Tile) : SetType :=
  if tiles.length < 3 then .invalid
  else if isValidRun tiles then .run
  else if isValidGroup tiles then .group
  else .invalid

/-- The gap-filling loop of `arrangeRunTiles`: for each number in the span
take the matching suited tile if it is next, else a joker if one is left,
else nothing.  Returns the arranged middle segment and the unused jokers. -/
def fillGaps : List Int → List Tile → List Tile → List Tile × List Tile
  | [], _, jokers => ([], jokers)
  | num :: nums, sorted, jokers =>
    match sorted with
    | s :: srest =>
      if s.number = num then
        let r := fillGaps nums srest jokers
        (s :: r.1, r.2)
      else
        match jokers with
        | j :: jrest =>
          let r := fillGaps nums (s :: srest) jrest
          (j :: r.1, r.2)
        | [] => fillGaps nums (s :: srest) []
    | [] =>
      match jokers with
      | j :: jrest =>
        let r := fillGaps nums [] jrest
        (j :: r.1, r.2)
      | [] => ([], [])

/-- `arrangeRunTiles` from `gameState.ts`: canonical run layout, jokers
extending toward lower numbers first, then filling gaps, then extending up. -/
def arrangeRunTiles (tiles : List Tile) : List Tile :=
  let jokers := tiles.filter (·.isJoker)
  let regularTiles := tiles.filter (fun t => !t.isJoker)
  if regularTiles.isEmpty then tiles
  else
    let sorted := sortByNumber regularTiles
    let minNum := firstNumber sorted
    let maxNum := lastNumber sorted
    let jokersForGaps := gapsSum sorted
    let jokersToExtend := (jokers.length : Int) - jokersForGaps
    let maxExtendBefore := minNum - 1
    let extendBefore := min jokersToExtend maxExtendBefore
    let extendAfter := jokersToExtend - extendBefore
    let beforeJokers := jokers.take extendBefore.toNat
    let restJokers := jokers.drop extendBefore.toNat
    let nums := (List.range (maxNum + 1 - minNum).toNat).map fun k => minNum + (k : Int)
    let mid := fillGaps nums sorted restJokers
    beforeJokers ++ mid.1 ++ mid.2.take extendAfter.toNat

/-- `stageCurrentSelection` from `gameState.ts`; `fid` is the injected fresh
id for the new staged set. -/
def stageCurrentSelection (fid : Nat) (state : GameState) : GameState :=
  if state.selectedTiles.isEmpty ∧ state.selectedBoardTiles.isEmpty then state
  else
    let allSelectedTiles := state.selectedTiles ++ state.selectedBoardTiles
    let valid := isValidSet allSelectedTiles
    let setType := determineStagedSetType allSelectedTiles
    let value := if valid then calculateSetValue allSelectedTiles else 0
    let arrangedTiles :=
      if setType = .run then arrangeRunTiles allSelectedTiles else allSelectedTiles
    let newStagedSet : StagedSet :=
      { id := fid
        tiles := arrangedTiles
        isValid := valid
        type := setType
        value := value
        sourceInfo :=
          { fromRack := state.selectedTiles.map (·.id)
            fromBoard := state.selectedBoardTiles.map (·.id) } }
    let updatedPlayers := mapWithIndex (fun index player =>
      if index = state.currentPlayerIndex then
        { player with tiles := player.tiles.filter fun t =>
            !(state.selectedTiles.any fun st => st.id == t.id) }
      else player) state.players
    let selectedBoardTileIds := state.selectedBoardTiles.map (·.id)
    let updatedBoard :=
      (state.board.map fun ts =>
        { ts with tiles := ts.tiles.filter fun t => !(selectedBoardTileIds.contains t.id) })
      |>.filter fun ts => !ts.tiles.isEmpty
    { state with
        players := updatedPlayers
        board := updatedBoard
        stagedSets := state.stagedSets ++ [newStagedSet]
        selectedTiles := []
        selectedBoardTiles := []
        turnState := .staging }

/-- `unstageSingleSet` from `gameState.ts`: rack-origin tiles return to the
rack (re-sorted); board-origin tiles return as one new board set. -/
def unstageSingleSet (state : GameState) (setId : Nat) : GameState :=
  match state.stagedSets.find? (fun s => s.id == setId) with
  | none => state
  | some setToRemove =>
    let rackTiles := setToRemove.tiles.filter fun t =>
      setToRemove.sourceInfo.fromRack.contains t.id
    let boardTiles := setToRemove.tiles.filter fun t =>
      setToRemove.sourceInfo.fromBoard.contains t.id
    let updatedPlayers := mapWithIndex (fun index player =>
      if index = state.currentPlayerIndex then
        { player with tiles := sortTilesByColorAndNumber (player.tiles ++ rackTiles) }
      else player) state.players
    let updatedBoard :=
      if boardTiles.length > 0 then
        state.board ++ [{ id := genSetId, tiles := boardTiles }]
      else state.board
    let remainingStagedSets := state.stagedSets.filter fun s => s.id != setId
    { state with
        players := updatedPlayers
        board := updatedBoard
        stagedSets := remainingStagedSets
        turnState := if remainingStagedSets.length > 0 then .staging else .selecting }

/-- `unstageAllSets` from `gameState.ts`. -/
def unstageAllSets (state : GameState) : GameState :=
  if state.stagedSets.isEmpty then state
  else
    let allRackTiles := state.stagedSets.flatMap fun ss =>
      ss.tiles.filter fun t => ss.sourceInfo.fromRack.contains t.id
    let allBoardTiles := state.stagedSets.flatMap fun ss =>
      ss.tiles.filter fun t =>
        !ss.sourceInfo.fromRack.contains t.id && ss.sourceInfo.fromBoard.contains t.id
    let updatedPlayers := mapWithIndex (fun index player =>
      if index = state.currentPlayerIndex then
        { player with tiles := sortTilesByColorAndNumber (player.tiles ++ allRackTiles) }
      else player) state.players
    let updatedBoard :=
      if allBoardTiles.length > 0 then
        state.board ++ [{ id := genSetId, tiles := allBoardTiles }]
      else state.board
    { state with
        players := updatedPlayers
        board := updatedBoard
        stagedSets := []
        turnState := .selecting }

/-- `commitAllStagedSets` from `gameState.ts`: fails when nothing is staged
or some staged set is flagged invalid; otherwise appends the staged sets to
the board and accrues their total value. -/
def commitAllStagedSets (state : GameState) : Except String GameState :=
  if state.stagedSets.isEmpty then .error "No staged sets to commit"
  else
    let invalidSets := state.stagedSets.filter fun s => !s.isValid
    if invalidSets.length > 0 then
      .error ("Cannot commit: " ++ toString invalidSets.length ++ " staged set(s) are invalid")
    else
      let totalValue := (state.stagedSets.map (·.value)).sum
      let newBoardSets := state.stagedSets.map fun stagedSet =>
        ({ id := genSetId, tiles := stagedSet.tiles } : TileSet)
      .ok { state with
              board := state.board ++ newBoardSets
              stagedSets := []
              turnState := .selecting
              pointsPlayedThisTurn := state.pointsPlayedThisTurn + totalValue }

/-- `calculatePlayerTileTotal`: rack valuation, jokers worth 30. -/
def calculatePlayerTileTotal (player : Player) : Int :=
  player.tiles.foldl (fun sum tile => if tile.isJoker then sum + 30 else sum + tile.number) 0

/-- `findWinnerByLowestTiles`: keep the first strictly-lower total. -/
def findWinnerByLowestTiles (players : List Player) : Player :=
  match players with
  | [] => default
  | w :: _ =>
    (players.foldl (fun acc p =>
      let total := calculatePlayerTileTotal p
      if total < acc.2 then (p, total) else acc)
      (w, calculatePlayerTileTotal w)).1

/-- `endTurn` from `gameState.ts`. -/
def endTurn (state : GameState) (drewTile : Bool) : Except String GameState :=
  let commitStep : Except String GameState :=
    if state.stagedSets.length > 0 then commitAllStagedSets state else .ok state
  match commitStep with
  | .error e => .error e
  | .ok currentState =>
    let currentPlayer := currentPlayerOf currentState
    if validateBoard currentState.board = false then
      .error "Invalid board state - all sets must be valid runs or groups with at least 3 tiles. Cancel to undo changes."
    else if currentPlayer.hasPlayedInitialMeld = false ∧
        currentState.pointsPlayedThisTurn > 0 ∧ currentState.pointsPlayedThisTurn < 30 then
      .error ("Initial meld must total at least 30 points. You have played "
        ++ toString currentState.pointsPlayedThisTurn ++ " points. Play more sets or cancel.")
    else
      let updatedPlayers := mapWithIndex (fun index player =>
        if index = currentState.currentPlayerIndex ∧ currentState.pointsPlayedThisTurn ≥ 30 then
          { player with hasPlayedInitialMeld := true }
        else player) currentState.players
      let updatedCurrentPlayer := updatedPlayers.getD currentState.currentPlayerIndex default
      if updatedCurrentPlayer.tiles.length = 0 then
        .ok { currentState with
                players := updatedPlayers
                gamePhase := .ended
                winner := some updatedCurrentPlayer
                pointsPlayedThisTurn := 0
                consecutivePasses := 0 }
      else
        let tookAction := currentState.pointsPlayedThisTurn > 0 ∨ drewTile = true
        let newConsecutivePasses :=
          if tookAction then 0 else currentState.consecutivePasses + 1
        if newConsecutivePasses ≥ currentState.players.length then
          .ok { currentState with
                  players := updatedPlayers
                  gamePhase := .ended
                  winner := some (findWinnerByLowestTiles updatedPlayers)
                  pointsPlayedThisTurn := 0
                  consecutivePasses := newConsecutivePasses }
        else
          let nextPlayerIndex := (currentState.currentPlayerIndex + 1) % currentState.players.length
          let nextPlayer := updatedPlayers.getD nextPlayerIndex default
          .ok { currentState with
                  players := updatedPlayers
                  currentPlayerIndex := nextPlayerIndex
                  selectedTiles := []
                  selectedBoardTiles := []
                  stagedSets := []
                  turnState := if nextPlayer.isAI then .aiThinking else .selecting
                  boardBeforeTurn := currentState.board
                  rackBeforeTurn := nextPlayer.tiles
                  pointsPlayedThisTurn := 0
                  consecutivePasses := newConsecutivePasses }

/-- `cancelTurn` from `gameState.ts`: restore the board and the acting
player's rack to the turn-start snapshot (the pool is not restored). -/
def cancelTurn (state : GameState) : GameState :=
  let updatedPlayers := mapWithIndex (fun index player =>
    if index = state.currentPlayerIndex then
      { player with tiles := state.rackBeforeTurn }
    else player) state.players
  { state with
      players := updatedPlayers
      board := state.boardBeforeTurn
      stagedSets := []
      selectedTiles := []
      selectedBoardTiles := []
      turnState := .selecting
      pointsPlayedThisTurn := 0 }

/-- `startTurn` from `gameState.ts`. -/
def startTurn (state : GameState) : GameState :=
  let currentPlayer := currentPlayerOf state
  { state with
      boardBeforeTurn := state.board
      rackBeforeTurn := currentPlayer.tiles
      stagedSets := []
      turnState := if currentPlayer.isAI then .aiThinking else .selecting
      pointsPlayedThisTurn := 0 }

end Engine

/-! ### ai.ts (namespace `AI`) -/

namespace AI

/-- A candidate play found by the planner. -/
structure PossiblePlay where
  tiles : List Tile
  value : Int
  type : SetType
deriving DecidableEq, Repr

instance : Inhabited PossiblePlay := ⟨{ tiles := [], value := 0, type := .invalid }⟩

/-- Descending order on play value (the `(a, b) => b.value - a.value` comparator). -/
def playValueGe (a b : PossiblePlay) : Prop := b.value ≤ a.value

instance : DecidableRel playValueGe := fun a b => by
  unfold playValueGe; infer_instance

instance : IsTotal PossiblePlay playValueGe := by
  constructor; intro a b; unfold playValueGe; omega

instance : IsTrans PossiblePlay playValueGe := by
  constructor; intro a b c hab hbc; unfold playValueGe at *; omega

/-- `arrangeRunTiles` from `ai.ts` (distinct from the `gameState.ts` version):
arranges the given suited tiles and jokers into a run, returning `[]` when
the arrangement is impossible. -/
def arrangeRunTilesAI (regularTiles : List Tile) (jokers : List Tile) : List Tile :=
  let sorted := sortByNumber regularTiles
  if sorted.isEmpty then []
  else if hasAdjacentDupNumber sorted then []
  else
    let startNum := firstNumber sorted
    let endNum := lastNumber sorted
    let jokersForGaps := gapsSum sorted
    if jokersForGaps > (jokers.length : Int) then []
    else
      let jokersToExtend := (jokers.length : Int) - jokersForGaps
      let maxExtendBefore := startNum - 1
      let extendBefore := min jokersToExtend maxExtendBefore
      let extendAfter := jokersToExtend - extendBefore
      if endNum + extendAfter > 13 then []
      else
        let beforeJokers := jokers.take extendBefore.toNat
        let restJokers := jokers.drop extendBefore.toNat
        let nums := (List.range (endNum + 1 - startNum).toNat).map fun k => startNum + (k : Int)
        match fillGapsStrict nums sorted restJokers with
        | none => []
        | some mid => beforeJokers ++ mid.1 ++ mid.2.take extendAfter.toNat
where
  /-- The gap loop with the `return []` guard when jokers run out. -/
  fillGapsStrict : List Int → List Tile → List Tile → Option (List Tile × List Tile)
    | [], _, jokers => some ([], jokers)
    | num :: nums, sorted, jokers =>
      match sorted with
      | s :: srest =>
        if s.number = num then
          (fillGapsStrict nums srest jokers).map fun r => (s :: r.1, r.2)
        else
          match jokers with
          | j :: jrest => (fillGapsStrict nums (s :: srest) jrest).map fun r => (j :: r.1, r.2)
          | [] => none
      | [] =>
        match jokers with
        | j :: jrest => (fillGapsStrict nums [] jrest).map fun r => (j :: r.1, r.2)
        | [] => none

/-- `tryFormRun` from `ai.ts`: try every joker count from 0 up to all
available jokers, keeping each arrangement of length ≥ 3. -/
def tryFormRun (baseTiles : List Tile) (availableJokers : List Tile) : List PossiblePlay :=
  if baseTiles.isEmpty then []
  else
    let sorted := sortByNumber baseTiles
    if hasAdjacentDupNumber sorted then []
    else
      let startNum := firstNumber sorted
      let endNum := lastNumber sorted
      let jokersForGaps := gapsSum sorted
      (List.range (availableJokers.length + 1)).filterMap fun jokerCount =>
        let jokersUsed := availableJokers.take jokerCount
        let jokersToExtend := (jokerCount : Int) - jokersForGaps
        if jokersToExtend < 0 then none
        else
          let maxExtendBefore := startNum - 1
          let maxExtendAfter := 13 - endNum
          if jokersToExtend > maxExtendBefore + maxExtendAfter then none
          else
            let arrangedTiles := arrangeRunTilesAI sorted jokersUsed
            if arrangedTiles.isEmpty then none
            else if arrangedTiles.length ≥ 3 then
              some { tiles := arrangedTiles
                     value := calculateSetValue arrangedTiles
                     type := .run }
            else none

/-- `findPossibleRuns` from `ai.ts`: per suit, every contiguous window of
length ≥ 3 over the sorted suit tiles, combined with feasible joker counts. -/
def findPossibleRuns (tiles : List Tile) : List PossiblePlay :=
  COLORS.flatMap fun color =>
    let colorTiles := tiles.filter fun t => t.color == color && !t.isJoker
    let jokers := tiles.filter (·.isJoker)
    let sorted := sortByNumber colorTiles
    (List.range sorted.length).flatMap fun start =>
      (List.range (sorted.length + 1 - (start + 2))).flatMap fun k =>
        let e := start + 2 + k
        tryFormRun ((sorted.drop start).take (e - start)) jokers

/-- First-occurrence-ordered distinct face numbers of the non-joker tiles
(the iteration order of the `byNumber` insertion-ordered map). -/
def distinctNumbersFirstOrder (tiles : List Tile) : List Int :=
  tiles.foldl (fun acc t =>
    if t.isJoker then acc
    else if acc.contains t.number then acc
    else acc ++ [t.number]) []

/-- One tile per color, keeping first occurrences (`uniqueByColor`). -/
def uniqueByColor (sameTiles : List Tile) : List Tile :=
  (sameTiles.foldl (fun (acc : List Tile × List TileColor) tile =>
    if acc.2.contains tile.color then acc
    else (acc.1 ++ [tile], acc.2 ++ [tile.color])) ([], [])).1

/-- `getCombinations` from `ai.ts`: all k-element combinations in order
(structural recursion on `k`; `k ≤ 0` collapses to `k = 0` over `Nat`). -/
def getCombinations : List Tile → Nat → List (List Tile)
  | _, 0 => []
  | arr, k + 1 =>
    if k + 1 > arr.length then []
    else if k + 1 = arr.length then [arr]
    else if k + 1 = 1 then arr.map fun item => [item]
    else
      (List.range (arr.length - (k + 1) + 1)).flatMap fun i =>
        let head := arr.getD i default
        (getCombinations (arr.drop (i + 1)) k).map fun tailCombo => head :: tailCombo

/-- `findPossibleGroups` from `ai.ts`. -/
def findPossibleGroups (tiles : List Tile) : List PossiblePlay :=
  let jokers := tiles.filter (·.isJoker)
  (distinctNumbersFirstOrder tiles).flatMap fun num =>
    let sameTiles := tiles.filter fun t => !t.isJoker && t.number == num
    let ubc := uniqueByColor sameTiles
    let combos := getCombinations ubc 3 ++ getCombinations ubc 4
    let plainPlays := combos.filterMap fun combo =>
      if isValidGroup combo then
        some ({ tiles := combo, value := calculateSetValue combo, type := .group } : PossiblePlay)
      else none
    let jokerPlays := (List.range ubc.length).flatMap fun nr0 =>
      let numRegular := nr0 + 1
      (getCombinations ubc numRegular).flatMap fun regularCombo =>
        (List.range (min jokers.length 3)).filterMap fun nj0 =>
          let numJokers := nj0 + 1
          let totalSize := numRegular + numJokers
          if 3 ≤ totalSize ∧ totalSize ≤ 4 then
            let groupWithJokers := regularCombo ++ jokers.take numJokers
            if isValidGroup groupWithJokers then
              some ({ tiles := groupWithJokers
                      value := calculateSetValue groupWithJokers
                      type := .group } : PossiblePlay)
            else none
          else none
    plainPlays ++ jokerPlays

/-- `findPossiblePlays` from `ai.ts`: runs then groups, stably sorted by
descending value. -/
def findPossiblePlays (tiles : List Tile) : List PossiblePlay :=
  List.insertionSort playValueGe (findPossibleRuns tiles ++ findPossibleGroups tiles)

/-- A board rearrangement found by the planner (`BoardRearrangement`). -/
structure BoardRearrangement where
  handTilesUsed : List Tile
  newBoard : List TileSet
  tilesPlayed : Nat
deriving DecidableEq, Repr

/-- `extractGroups` from `ai.ts`: greedily form groups of 4, then 3, then
2-plus-joker, per distinct face number. -/
def extractGroups (tiles : List Tile) : List (List Tile) × List Tile :=
  let jokers := tiles.filter (·.isJoker)
  let step := fun (acc : List (List Tile) × List Tile × Nat) (num : Int) =>
    let sameTiles := tiles.filter fun t => !t.isJoker && t.number == num
    let ubc := uniqueByColor sameTiles
    if ubc.length ≥ 4 then
      let g := ubc.take 4
      (acc.1 ++ [g], acc.2.1.filter (fun t => !(g.any fun u => u.id == t.id)), acc.2.2)
    else if ubc.length ≥ 3 then
      let g := ubc.take 3
      (acc.1 ++ [g], acc.2.1.filter (fun t => !(g.any fun u => u.id == t.id)), acc.2.2)
    else if ubc.length = 2 ∧ acc.2.2 < jokers.length then
      let g := ubc ++ [jokers.getD acc.2.2 default]
      (acc.1 ++ [g], acc.2.1.filter (fun t => !(g.any fun u => u.id == t.id)), acc.2.2 + 1)
    else acc
  let r := (distinctNumbersFirstOrder tiles).foldl step ([], tiles, 0)
  (r.1, r.2.1)

/-- The consecutive extension of a run: keep taking tiles whose number is
exactly one more than the previous. -/
def consecFrom : Int → List Tile → List Tile
  | _, [] => []
  | prev, t :: ts => if t.number = prev + 1 then t :: consecFrom t.number ts else []

/-- The candidate consecutive run starting at a given index
(`colorTiles[start]` followed by its consecutive successors). -/
def runStartingAt (colorTiles : List Tile) (start : Nat) : List Tile :=
  match colorTiles.drop start with
  | [] => []
  | t :: rest => t :: consecFrom t.number rest

/-- The longest consecutive run over all start positions (first strictly
longer run wins, as in the source loop). -/
def bestRunOf (colorTiles : List Tile) : List Tile :=
  (List.range (colorTiles.length - 2)).foldl (fun best start =>
    let run := runStartingAt colorTiles start
    if run.length ≥ 3 ∧ run.length > best.length then run else best) []

/-- The `while (colorTiles.length >= 3)` loop of `extractRuns`. -/
def extractRunsLoop (colorTiles : List Tile) (remaining : List Tile)
    (formed : List (List Tile)) : List (List Tile) × List Tile :=
  if colorTiles.length < 3 then (formed, remaining)
  else if h : (bestRunOf colorTiles).length ≥ 3 then
    extractRunsLoop
      (colorTiles.filter fun t => !((bestRunOf colorTiles).any fun r => r.id == t.id))
      (remaining.filter fun t => !((bestRunOf colorTiles).any fun r => r.id == t.id))
      (formed ++ [bestRunOf colorTiles])
  else (formed, remaining)
termination_by colorTiles.length
decreasing_by
  have hfilter : ∀ {p : Tile → Bool} {a : Tile} {l : List Tile},
      a ∈ l → p a = false → (l.filter p).length < l.length := by
    intro p a l ha hpa
    induction l with
    | nil => cases ha
    | cons x xs ih =>
      rcases List.mem_cons.mp ha with rfl | hmem
      · simp only [List.filter_cons, hpa, List.length_cons]
        exact Nat.lt_succ_of_le (List.length_filter_le _ _)
      · by_cases hx : p x
        · simpa [List.filter_cons, hx] using Nat.succ_lt_succ (ih hmem)
        · simp only [Bool.not_eq_true] at hx
          simp only [List.filter_cons, hx, List.length_cons]
          exact Nat.lt_succ_of_lt (ih hmem)
  have hrunsub : ∀ (ct : List Tile) (s : Nat),
      runStartingAt ct s = [] ∨ ∃ t, t ∈ runStartingAt ct s ∧ t ∈ ct := by
    intro ct s
    unfold runStartingAt
    cases hdrop : ct.drop s with
    | nil => left; rfl
    | cons t rest =>
      right
      refine ⟨t, List.mem_cons_self t _, ?_⟩
      have ht : t ∈ ct.drop s := by rw [hdrop]; exact List.mem_cons_self t rest
      exact List.mem_of_mem_drop ht
  have hbestsub : ∀ (ct : List Tile),
      bestRunOf ct = [] ∨ ∃ t, t ∈ bestRunOf ct ∧ t ∈ ct := by
    intro ct
    unfold bestRunOf
    generalize List.range (ct.length - 2) = idxs
    have main : ∀ (l : List Nat) (best : List Tile),
        (best = [] ∨ ∃ t, t ∈ best ∧ t ∈ ct) →
        (l.foldl (fun best start =>
            let run := runStartingAt ct start
            if run.length ≥ 3 ∧ run.length > best.length then run else best) best = [] ∨
          ∃ t, t ∈ l.foldl (fun best start =>
            let run := runStartingAt ct start
            if run.length ≥ 3 ∧ run.length > best.length then run else best) best ∧ t ∈ ct) := by
      intro l
      induction l with
      | nil => intro best hb; exact hb
      | cons x xs ih =>
        intro best hb
        rw [List.foldl_cons]
        apply ih
        show (if (runStartingAt ct x).length ≥ 3 ∧ (runStartingAt ct x).length > best.length
              then runStartingAt ct x else best) = [] ∨
          ∃ t, t ∈ (if (runStartingAt ct x).length ≥ 3 ∧
                (runStartingAt ct x).length > best.length
              then runStartingAt ct x else best) ∧ t ∈ ct
        split_ifs with hc
        · rcases hrunsub ct x with hnil | hex
          · rw [hnil] at hc; simp at hc
          · exact Or.inr hex
        · exact hb
    exact main idxs [] (Or.inl rfl)
  rcases hbestsub colorTiles with hnil | ⟨t, htbest, htcolor⟩
  · rw [hnil] at h; simp at h
  · apply hfilter htcolor
    have hany : ((bestRunOf colorTiles).any fun r => r.id == t.id) = true :=
      List.any_eq_true.mpr ⟨t, htbest, by simp⟩
    simp [hany]

/-- Keep the first tile of each face number (the `uniqueNums` map). -/
def dedupByNumberKeepFirst (tiles : List Tile) : List Tile :=
  (tiles.foldl (fun (acc : List Tile × List Int) t =>
    if acc.2.contains t.number then acc
    else (acc.1 ++ [t], acc.2 ++ [t.number])) ([], [])).1

/-- `extractRuns` from `ai.ts`: per suit, repeatedly extract the longest
consecutive run of length ≥ 3. -/
def extractRuns (tiles : List Tile) : List (List Tile) × List Tile :=
  COLORS.foldl (fun (acc : List (List Tile) × List Tile) color =>
    let colorTiles0 := acc.2.filter fun t => t.color == color && !t.isJoker
    let sorted := sortByNumber colorTiles0
    let colorTiles := sortByNumber (dedupByNumberKeepFirst sorted)
    extractRunsLoop colorTiles acc.2 acc.1) ([], tiles)

/-- `greedyPartition` from `ai.ts`: groups-then-runs, retrying
runs-then-groups when tiles are left over; `none` when both fail. -/
def greedyPartition (tiles : List Tile) : Option (List (List Tile)) :=
  let groups := extractGroups tiles
  let runs := extractRuns groups.2
  if runs.2.length > 0 then
    let runs2 := extractRuns tiles
    let groups2 := extractGroups runs2.2
    if groups2.2.length = 0 then some (runs2.1 ++ groups2.1)
    else none
  else some (groups.1 ++ runs.1)

/-- `tryFormValidBoard` from `ai.ts`. -/
def tryFormValidBoard (allTiles : List Tile) (mustUseIds : List Nat)
    (handTilesUsed : List Tile) : Option BoardRearrangement :=
  match greedyPartition allTiles with
  | none => none
  | some sets =>
    let usedIds := sets.flatMap fun s => s.map (·.id)
    if mustUseIds.all (fun i => usedIds.contains i) then
      some { handTilesUsed := handTilesUsed
             newBoard := sets.map fun ts => ({ id := genSetId, tiles := ts } : TileSet)
             tilesPlayed := handTilesUsed.length }
    else none

/-- `[n, n-1, ..., 1]`: the descending loop over subset sizes. -/
def descRange : Nat → List Nat
  | 0 => []
  | n + 1 => (n + 1) :: descRange n

/-- `findMultiTileRearrangement` from `ai.ts`: try progressively fewer hand
tiles (from `min(handTiles.length, 5)` down to 1), first success wins. -/
def findMultiTileRearrangement (handTiles : List Tile) (board : List TileSet) :
    Option BoardRearrangement :=
  let boardTiles := board.flatMap (·.tiles)
  (descRange (min handTiles.length 5)).findSome? fun numToPlay =>
    (getCombinations handTiles numToPlay).findSome? fun handCombo =>
      tryFormValidBoard (boardTiles ++ handCombo) (handCombo.map (·.id)) handCombo

/-- `calculatePlayerTileTotal` from `ai.ts` (over a tile list). -/
def calculatePlayerTileTotal (tiles : List Tile) : Int :=
  tiles.foldl (fun sum tile => if tile.isJoker then sum + 30 else sum + tile.number) 0

/-- `findWinnerByLowestTiles` from `ai.ts`. -/
def findWinnerByLowestTiles (players : List Player) : Player :=
  match players with
  | [] => default
  | w :: _ =>
    (players.foldl (fun acc p =>
      let total := calculatePlayerTileTotal p.tiles
      if total < acc.2 then (p, total) else acc)
      (w, calculatePlayerTileTotal w.tiles)).1

/-- `endAITurn` from `ai.ts`. -/
def endAITurn (state : GameState) (madePlay : Bool) : GameState :=
  let nextPlayerIndex := (state.currentPlayerIndex + 1) % state.players.length
  let nextPlayer := state.players.getD nextPlayerIndex default
  let newConsecutivePasses := if madePlay then 0 else state.consecutivePasses + 1
  if newConsecutivePasses ≥ state.players.length then
    { state with
        gamePhase := .ended
        winner := some (findWinnerByLowestTiles state.players)
        pointsPlayedThisTurn := 0
        consecutivePasses := newConsecutivePasses }
  else
    { state with
        currentPlayerIndex := nextPlayerIndex
        selectedTiles := []
        selectedBoardTiles := []
        stagedSets := []
        turnState := if nextPlayer.isAI then .aiThinking else .selecting
        boardBeforeTurn := state.board
        rackBeforeTurn := (state.players.getD nextPlayerIndex default).tiles
        pointsPlayedThisTurn := 0
        consecutivePasses := newConsecutivePasses }

/-- The bounded greedy loop of `executeAIInitialMeld` (up to 10 iterations):
play the single highest-value available play, placing it on the board and
accumulating points.  `Sum.inl` is the early return when the rack empties
with 30+ accumulated points; `Sum.inr` is the loop falling through with the
final intermediate state and total. -/
def aiMeldLoop : Nat → GameState → Int → GameState ⊕ (GameState × Int)
  | 0, currentState, totalPoints => Sum.inr (currentState, totalPoints)
  | fuel + 1, currentState, totalPoints =>
    let currentPlayer := currentState.players.getD currentState.currentPlayerIndex default
    match findPossiblePlays currentPlayer.tiles with
    | [] => Sum.inr (currentState, totalPoints)
    | play :: _ =>
      let playedTileIds := play.tiles.map (·.id)
      let updatedPlayers := mapWithIndex (fun index player =>
        if index = currentState.currentPlayerIndex then
          { player with tiles := player.tiles.filter fun t => !playedTileIds.contains t.id }
        else player) currentState.players
      let newSet : TileSet := { id := genSetId, tiles := play.tiles }
      let newTotal := totalPoints + play.value
      let nextState := { currentState with
        players := updatedPlayers
        board := currentState.board ++ [newSet]
        pointsPlayedThisTurn := newTotal }
      if (updatedPlayers.getD nextState.currentPlayerIndex default).tiles.length = 0 ∧
          newTotal ≥ 30 then
        let finalPlayers := mapWithIndex (fun index player =>
          if index = nextState.currentPlayerIndex then
            { player with hasPlayedInitialMeld := true }
          else player) nextState.players
        Sum.inl { nextState with
                    players := finalPlayers
                    gamePhase := .ended
                    winner := some (finalPlayers.getD nextState.currentPlayerIndex default) }
      else aiMeldLoop fuel nextState newTotal

/-- `executeAIInitialMeld` from `ai.ts`: run the greedy loop; with 30+
points mark the meld and end the turn; otherwise discard the provisional
plays and draw from the original state (or pass when the pool is empty). -/
def executeAIInitialMeld (state : GameState) : GameState :=
  match aiMeldLoop 10 { state with pointsPlayedThisTurn := 0 } 0 with
  | Sum.inl finalState => finalState
  | Sum.inr (currentState, totalPoints) =>
    if totalPoints ≥ 30 then
      let finalPlayers := mapWithIndex (fun index player =>
        if index = currentState.currentPlayerIndex then
          { player with hasPlayedInitialMeld := true }
        else player) currentState.players
      endAITurn { currentState with players := finalPlayers } true
    else
      match state.pool with
      | [] => endAITurn state false
      | drawnTile :: remainingPool =>
        let updatedPlayers := mapWithIndex (fun index player =>
          if index = state.currentPlayerIndex then
            { player with tiles := sortTilesByColorAndNumber (player.tiles ++ [drawnTile]) }
          else player) state.players
        endAITurn { state with players := updatedPlayers, pool := remainingPool } true

/-- `tryMoreAIPlays` from `ai.ts`: depth-capped multi-play recursion with a
defensive check that the chosen tiles still exist in the rack, falling back
to board rearrangement when no direct play exists. -/
def tryMoreAIPlays (state : GameState) (depth : Nat) : GameState :=
  if depth > 10 then state
  else
    let currentPlayer := state.players.getD state.currentPlayerIndex default
    if currentPlayer.hasPlayedInitialMeld = false then state
    else
      match findPossiblePlays currentPlayer.tiles with
      | selectedPlay :: _ =>
        let playedTileIds := selectedPlay.tiles.map (·.id)
        if (selectedPlay.tiles.all fun t =>
            currentPlayer.tiles.any fun pt => pt.id == t.id) = false then state
        else
          let updatedPlayers := mapWithIndex (fun index player =>
            if index = state.currentPlayerIndex then
              { player with tiles := player.tiles.filter fun t => !playedTileIds.contains t.id }
            else player) state.players
          let newSet : TileSet := { id := genSetId, tiles := selectedPlay.tiles }
          let newState := { state with
            players := updatedPlayers
            board := state.board ++ [newSet]
            pointsPlayedThisTurn := state.pointsPlayedThisTurn + selectedPlay.value }
          if (updatedPlayers.getD state.currentPlayerIndex default).tiles.length = 0 then
            { newState with
                gamePhase := .ended
                winner := some (updatedPlayers.getD state.currentPlayerIndex default) }
          else tryMoreAIPlays newState (depth + 1)
      | [] =>
        if state.board.length > 0 ∧ currentPlayer.tiles.length > 0 then
          match findMultiTileRearrangement currentPlayer.tiles state.board with
          | some rearrangement =>
            if rearrangement.tilesPlayed > 0 then
              if (rearrangement.handTilesUsed.all fun t =>
                  currentPlayer.tiles.any fun pt => pt.id == t.id) = false then state
              else
                let playedTileIds := rearrangement.handTilesUsed.map (·.id)
                let updatedPlayers := mapWithIndex (fun index player =>
                  if index = state.currentPlayerIndex then
                    { player with
                        tiles := player.tiles.filter fun t => !playedTileIds.contains t.id }
                  else player) state.players
                let newState := { state with
                  players := updatedPlayers
                  board := rearrangement.newBoard
                  pointsPlayedThisTurn :=
                    state.pointsPlayedThisTurn + (rearrangement.tilesPlayed : Int) * 5 }
                if (updatedPlayers.getD state.currentPlayerIndex default).tiles.length = 0 then
                  { newState with
                      gamePhase := .ended
                      winner := some (updatedPlayers.getD state.currentPlayerIndex default) }
                else tryMoreAIPlays newState (depth + 1)
            else state
          | none => state
        else state
termination_by 11 - depth
decreasing_by
  all_goals omega

/-- `executeAIRegularTurn` from `ai.ts`. -/
def executeAIRegularTurn (state : GameState) : GameState :=
  let currentPlayer := state.players.getD state.currentPlayerIndex default
  match findPossiblePlays currentPlayer.tiles with
  | selectedPlay :: _ =>
    let playedTileIds := selectedPlay.tiles.map (·.id)
    let updatedPlayers := mapWithIndex (fun index player =>
      if index = state.currentPlayerIndex then
        { player with tiles := player.tiles.filter fun t => !playedTileIds.contains t.id }
      else player) state.players
    let newSet : TileSet := { id := genSetId, tiles := selectedPlay.tiles }
    let newState := { state with
      players := updatedPlayers
      board := state.board ++ [newSet]
      pointsPlayedThisTurn := state.pointsPlayedThisTurn + selectedPlay.value }
    if (updatedPlayers.getD state.currentPlayerIndex default).tiles.length = 0 then
      { newState with
          gamePhase := .ended
          winner := some (updatedPlayers.getD state.currentPlayerIndex default) }
    else
      endAITurn (tryMoreAIPlays newState 0) true
  | [] =>
    let afterRearrange : Option GameState :=
      if state.board.length > 0 then
        match findMultiTileRearrangement currentPlayer.tiles state.board with
        | some rearrangement =>
          if rearrangement.tilesPlayed > 0 then
            let playedTileIds := rearrangement.handTilesUsed.map (·.id)
            let updatedPlayers := mapWithIndex (fun index player =>
              if index = state.currentPlayerIndex then
                { player with tiles := player.tiles.filter fun t => !playedTileIds.contains t.id }
              else player) state.players
            let newState := { state with
              players := updatedPlayers
              board := rearrangement.newBoard
              pointsPlayedThisTurn :=
                state.pointsPlayedThisTurn + (rearrangement.tilesPlayed : Int) * 5 }
            if (updatedPlayers.getD state.currentPlayerIndex default).tiles.length = 0 then
              some { newState with
                       gamePhase := .ended
                       winner := some (updatedPlayers.getD state.currentPlayerIndex default) }
            else some (endAITurn (tryMoreAIPlays newState 0) true)
          else none
        | none => none
      else none
    match afterRearrange with
    | some s => s
    | none =>
      match state.pool with
      | [] => endAITurn state false
      | drawnTile :: remainingPool =>
        let updatedPlayers := mapWithIndex (fun index player =>
          if index = state.currentPlayerIndex then
            { player with tiles := sortTilesByColorAndNumber (player.tiles ++ [drawnTile]) }
          else player) state.players
        endAITurn { state with players := updatedPlayers, pool := remainingPool } true

/-- `executeAITurn` from `ai.ts`: pre-meld accumulation or regular turn. -/
def executeAITurn (state : GameState) : GameState :=
  let currentPlayer := state.players.getD state.currentPlayerIndex default
  if currentPlayer.hasPlayedInitialMeld = false then executeAIInitialMeld state
  else executeAIRegularTurn state

end AI

/-! ### Specification-side definitions -/

/-- Count of tiles of one (color, number) kind in a tile list. -/
def countKind (c : TileColor) (n : Int) (l : List Tile) : Nat :=
  l.countP fun t => t.color == c && t.number == n

/-- Total count of a tile kind across pool, all racks, all board sets and
all staged sets (the containers of the conservation invariant). -/
def totalKindCount (c : TileColor) (n : Int) (s : GameState) : Nat :=
  countKind c n s.pool
    + (s.players.map fun p => countKind c n p.tiles).sum
    + (s.board.map fun b => countKind c n b.tiles).sum
    + (s.stagedSets.map fun b => countKind c n b.tiles).sum

/-- Minimum of the face numbers in a tile list (0 when empty). -/
def listMinNumber : List Tile → Int
  | [] => 0
  | t :: ts => ts.foldl (fun m u => min m u.number) t.number

/-- Maximum of the face numbers in a tile list (0 when empty). -/
def listMaxNumber : List Tile → Int
  | [] => 0
  | t :: ts => ts.foldl (fun m u => max m u.number) t.number

/-- The minimum suited (non-joker) face number of a tile list. -/
def minSuitedNumber (tiles : List Tile) : Int :=
  listMinNumber (tiles.filter fun t => !t.isJoker)

/-- The maximum suited (non-joker) face number of a tile list. -/
def maxSuitedNumber (tiles : List Tile) : Int :=
  listMaxNumber (tiles.filter fun t => !t.isJoker)

/-- Jokers needed to fill the gaps of a run: the size of the suited span
minus the number of suited tiles. -/
def gapsNeededSpec (tiles : List Tile) : Int :=
  (maxSuitedNumber tiles - minSuitedNumber tiles + 1)
    - ((tiles.filter fun t => !t.isJoker).length : Int)

/-- Jokers left over after gap filling, available to extend the run. -/
def jokersToExtendSpec (tiles : List Tile) : Int :=
  ((tiles.filter (·.isJoker)).length : Int) - gapsNeededSpec tiles

/-- Extension toward lower numbers first, capped by the distance to 1. -/
def extendBeforeSpec (tiles : List Tile) : Int :=
  min (jokersToExtendSpec tiles) (minSuitedNumber tiles - 1)

/-- The remaining extension, placed after the suited maximum. -/
def extendAfterSpec (tiles : List Tile) : Int :=
  jokersToExtendSpec tiles - extendBeforeSpec tiles

/-- The specification's characterization of a valid run: at least 3 tiles,
at least one suited tile, one suit only, pairwise-distinct suited numbers,
jokers sufficient for the gaps, arranged length equal to the tile count,
and the leftover extension fitting within the bounds 1-13. -/
def runSpec (tiles : List Tile) : Prop :=
  3 ≤ tiles.length ∧
  tiles.filter (fun t => !t.isJoker) ≠ [] ∧
  (∀ a ∈ tiles.filter fun t => !t.isJoker, ∀ b ∈ tiles.filter fun t => !t.isJoker,
    a.color = b.color) ∧
  ((tiles.filter fun t => !t.isJoker).map Tile.number).Nodup ∧
  gapsNeededSpec tiles ≤ ((tiles.filter (·.isJoker)).length : Int) ∧
  (tiles.length : Int) =
    (maxSuitedNumber tiles - minSuitedNumber tiles + 1) + jokersToExtendSpec tiles ∧
  jokersToExtendSpec tiles ≤ (minSuitedNumber tiles - 1) + (13 - maxSuitedNumber tiles)

/-- Points this turn after auto-committing the staged sets. -/
def pointsAfterCommit (s : GameState) : Int :=
  s.pointsPlayedThisTurn + (s.stagedSets.map (·.value)).sum

/-- The board after auto-committing the staged sets. -/
def boardAfterCommit (s : GameState) : List TileSet :=
  s.board ++ s.stagedSets.map fun ss => ({ id := genSetId, tiles := ss.tiles } : TileSet)

/-- The initial-meld flag of the player at index `i`. -/
def flagAt (s : GameState) (i : Nat) : Bool :=
  (s.players.getD i default).hasPlayedInitialMeld

/-- Positionwise monotonicity of the initial-meld flags. -/
def playersFlagsMono (l l' : List Player) : Prop :=
  ∀ i, (l.getD i default).hasPlayedInitialMeld = true →
    (l'.getD i default).hasPlayedInitialMeld = true

/-- The initial-meld flags never transition from true back to false. -/
def flagsMono (s s' : GameState) : Prop := playersFlagsMono s.players s'.players

/-- One public transition of the engine (the interface of §6): errors leave
the prior state untouched, so only successful results produce a step. -/
inductive Step : GameState → GameState → Prop where
  | startTurn (s : GameState) : Step s (Engine.startTurn s)
  | drawTile (s : GameState) : Step s (Engine.drawTile s)
  | selectTile (s : GameState) (t : Tile) : Step s (Engine.selectTile s t)
  | selectBoardTile (s : GameState) (t : Tile) : Step s (Engine.selectBoardTile s t)
  | stageCurrentSelection (s : GameState) (fid : Nat) :
      Step s (Engine.stageCurrentSelection fid s)
  | unstageSingleSet (s : GameState) (setId : Nat) : Step s (Engine.unstageSingleSet s setId)
  | unstageAllSets (s : GameState) : Step s (Engine.unstageAllSets s)
  | commitAllStagedSets (s s' : GameState) (h : Engine.commitAllStagedSets s = .ok s') :
      Step s s'
  | endTurn (s : GameState) (d : Bool) (s' : GameState) (h : Engine.endTurn s d = .ok s') :
      Step s s'
  | cancelTurn (s : GameState) : Step s (Engine.cancelTurn s)
  | executeAITurn (s : GameState) : Step s (AI.executeAITurn s)

/-- `w` is the earliest-index player among those of minimum rack valuation. -/
def isEarliestMinWinner (players : List Player) (w : Player) : Prop :=
  ∃ i, i < players.length ∧ w = players.getD i default ∧
    (∀ j, j < players.length →
      Engine.calculatePlayerTileTotal w ≤
        Engine.calculatePlayerTileTotal (players.getD j default)) ∧
    (∀ j, j < i →
      Engine.calculatePlayerTileTotal w <
        Engine.calculatePlayerTileTotal (players.getD j default))

/-- Recursive form of the winner fold: keep the first strictly-lower total. -/
def firstMinPlayer (w : Player) : List Player → Player
  | [] => w
  | p :: ps =>
    if Engine.calculatePlayerTileTotal p < Engine.calculatePlayerTileTotal w
    then firstMinPlayer p ps else firstMinPlayer w ps

/-! ### Concrete fixture states used by counterexamples and witnesses -/

/-- A suited tile fixture. -/
def mkTile (id : Nat) (c : TileColor) (n : Int) : Tile :=
  { id := id, color := c, number := n, isJoker := false }

/-- A joker fixture. -/
def mkJoker (id : Nat) : Tile :=
  { id := id, color := .joker, number := 0, isJoker := true }

/-- A player fixture. -/
def mkPlayer (pid : Nat) (ts : List Tile) (meld ai : Bool) : Player :=
  { id := pid, name := "p", tiles := ts, hasPlayedInitialMeld := meld, isAI := ai }

/-- A quiet base state: four players, empty board, nothing selected. -/
def baseState (ps : List Player) : GameState :=
  { players := ps
    currentPlayerIndex := 0
    board := []
    pool := []
    selectedTiles := []
    selectedBoardTiles := []
    stagedSets := []
    gamePhase := .playing
    winner := none
    turnState := .selecting
    boardBeforeTurn := []
    rackBeforeTurn := []
    pointsPlayedThisTurn := 0
    consecutivePasses := 0 }

/-- C2 fixture: the acting AI (index 1) holds the run 1-2-3 of red (worth
6 < 30) and the pool holds one tile. -/
def c2State : GameState :=
  { baseState
      [mkPlayer 0 [mkTile 100 .yellow 1] false false,
       mkPlayer 1 [mkTile 201 .red 1, mkTile 202 .red 2, mkTile 203 .red 3] false true,
       mkPlayer 2 [mkTile 101 .yellow 2] false true,
       mkPlayer 3 [mkTile 102 .yellow 3] false true] with
    currentPlayerIndex := 1
    pool := [mkTile 300 .blue 9]
    turnState := .aiThinking }

/-- C3 fixture: the board holds the group 7-red/7-blue/7-black; the acting
player (who has melded) selects 7-red from the board plus 7-yellow and a
joker from the rack, leaving a 2-tile remnant on the board after staging. -/
def c3State : GameState :=
  { baseState
      [mkPlayer 0 [mkTile 400 .yellow 7, mkJoker 401, mkTile 402 .yellow 5] true false,
       mkPlayer 1 [mkTile 101 .yellow 2] false true,
       mkPlayer 2 [mkTile 102 .yellow 3] false true,
       mkPlayer 3 [mkTile 103 .yellow 4] false true] with
    board := [{ id := 50, tiles := [mkTile 501 .red 7, mkTile 502 .blue 7, mkTile 503 .black 7] }]
    pool := [mkTile 300 .blue 9]
    selectedTiles := [mkTile 400 .yellow 7, mkJoker 401]
    selectedBoardTiles := [mkTile 501 .red 7] }

/-- C3/C5 witness fixture: a quiet state in which `endTurn` succeeds. -/
def quietState : GameState :=
  baseState
    [mkPlayer 0 [mkTile 100 .yellow 5] false false,
     mkPlayer 1 [mkTile 101 .yellow 2] false true,
     mkPlayer 2 [mkTile 102 .yellow 2] false true,
     mkPlayer 3 [mkTile 103 .yellow 9] false true]

/-- C4 witness fixture: three passes already recorded, so one more no-op
turn stalemates; minimum valuation 2 first attained at index 1. -/
def c4State : GameState :=
  { baseState
      [mkPlayer 0 [mkTile 100 .yellow 5] false false,
       mkPlayer 1 [mkTile 101 .yellow 2] false true,
       mkPlayer 2 [mkTile 102 .yellow 2] false true,
       mkPlayer 3 [mkTile 103 .yellow 9] false true] with
    consecutivePasses := 3 }

/-- C5 witness fixture (threshold error): 6 points played before the meld. -/
def c5StateA : GameState :=
  { baseState
      [mkPlayer 0 [mkTile 100 .yellow 5] false false,
       mkPlayer 1 [mkTile 101 .yellow 2] false true,
       mkPlayer 2 [mkTile 102 .yellow 2] false true,
       mkPlayer 3 [mkTile 103 .yellow 9] false true] with
    pointsPlayedThisTurn := 6 }

/-- C5 witness fixture (meld success): 30 points played this turn. -/
def c5StateC : GameState :=
  { baseState
      [mkPlayer 0 [mkTile 100 .yellow 5] false false,
       mkPlayer 1 [mkTile 101 .yellow 2] false true,
       mkPlayer 2 [mkTile 102 .yellow 2] false true,
       mkPlayer 3 [mkTile 103 .yellow 9] false true] with
    pointsPlayedThisTurn := 30 }

/-- C8 fixture: a nonempty pool and a nonempty board-tile selection. -/
def c8State : GameState :=
  { baseState
      [mkPlayer 0 [mkTile 100 .yellow 5, mkTile 104 .red 2] true false,
       mkPlayer 1 [mkTile 101 .yellow 2] false true,
       mkPlayer 2 [mkTile 102 .yellow 2] false true,
       mkPlayer 3 [mkTile 103 .yellow 9] false true] with
    pool := [mkTile 300 .blue 9, mkTile 301 .blue 10]
    selectedTiles := [mkTile 104 .red 2]
    selectedBoardTiles := [mkTile 501 .red 7]
    stagedSets := [{ id := 9, tiles := [mkTile 502 .blue 7], isValid := false,
                     type := .invalid, value := 0,
                     sourceInfo := { fromRack := [502], fromBoard := [] } }] }

/-- C10 fixture: an acting player who has satisfied the initial meld. -/
def c10State : GameState :=
  { baseState
      [mkPlayer 0 [mkTile 100 .yellow 5] true false,
       mkPlayer 1 [mkTile 101 .yellow 2] false true,
       mkPlayer 2 [mkTile 102 .yellow 2] false true,
       mkPlayer 3 [mkTile 103 .yellow 9] false true] with
    selectedTiles := [mkTile 600 .red 4]
    selectedBoardTiles := [mkTile 601 .blue 4] }

/-- The state returned by a successful `endTurn` on `c5StateC`. -/
def c5ResultC : GameState :=
  (Engine.endTurn c5StateC false).toOption.getD c5StateC

/-- The intermediate state reached by the pre-meld greedy loop on `c2State`. -/
def c2Mid : GameState :=
  Sum.elim id Prod.fst (AI.aiMeldLoop 10 { c2State with pointsPlayedThisTurn := 0 } 0)

/-- The run 7-red, 8-red, joker of the tie-break example. -/
def run78Joker : List Tile :=
  [mkTile 700 .red 7, mkTile 701 .red 8, mkJoker 702]

/-- The run 5, 6, 7 of one suit. -/
def run567 : List Tile :=
  [mkTile 710 .red 5, mkTile 711 .red 6, mkTile 712 .red 7]

/-- The selection-toggle on a tile list: remove the id if present, else
append the tile (the common core of `selectTile` / `selectBoardTile`). -/
def toggleTiles (l : List Tile) (t : Tile) : List Tile :=
  if l.any fun x => x.id == t.id then l.filter fun x => x.id != t.id
  else l ++ [t]

/-! ### Lemmas about the indexed map -/

theorem mapIdxFrom_shift {α β : Type} (f : Nat → α → β) (k : Nat) (l : List α) :
    mapIdxFrom f (k + 1) l = mapIdxFrom (fun i x => f (i + 1) x) k l := by
  induction l generalizing k with
  | nil => rfl
  | cons x xs ih => simp only [mapIdxFrom, ih]

theorem mapIdxFrom_length {α β : Type} (f : Nat → α → β) :
    ∀ (k : Nat) (l : List α), (mapIdxFrom f k l).length = l.length := by
  intro k l
  induction l generalizing k with
  | nil => rfl
  | cons x xs ih => simp only [mapIdxFrom, List.length_cons, ih]

theorem mapWithIndex_length {α β : Type} (f : Nat → α → β) (l : List α) :
    (mapWithIndex f l).length = l.length :=
  mapIdxFrom_length f 0 l

theorem mapIdxFrom_congr {α β : Type} {f g : Nat → α → β} (h : ∀ i x, f i x = g i x) :
    ∀ (k : Nat) (l : List α), mapIdxFrom f k l = mapIdxFrom g k l := by
  intro k l
  induction l generalizing k with
  | nil => rfl
  | cons x xs ih => simp only [mapIdxFrom, h, ih]

theorem mapWithIndex_congr {α β : Type} {f g : Nat → α → β} (h : ∀ i x, f i x = g i x)
    (l : List α) : mapWithIndex f l = mapWithIndex g l :=
  mapIdxFrom_congr h 0 l

theorem mapIdxFrom_comp {α : Type} (f g : Nat → α → α) :
    ∀ (k : Nat) (l : List α),
      mapIdxFrom f k (mapIdxFrom g k l) = mapIdxFrom (fun i x => f i (g i x)) k l := by
  intro k l
  induction l generalizing k with
  | nil => rfl
  | cons x xs ih => simp only [mapIdxFrom, ih]

theorem mapWithIndex_comp {α : Type} (f g : Nat → α → α) (l : List α) :
    mapWithIndex f (mapWithIndex g l) = mapWithIndex (fun i x => f i (g i x)) l :=
  mapIdxFrom_comp f g 0 l

theorem mapIdxFrom_getD {α : Type} [Inhabited α] (f : Nat → α → α) :
    ∀ (l : List α) (k i : Nat),
      (mapIdxFrom f k l).getD i default =
        if i < l.length then f (k + i) (l.getD i default) else default := by
  intro l
  induction l with
  | nil => intro k i; simp [mapIdxFrom]
  | cons x xs ih =>
    intro k i
    cases i with
    | zero => simp [mapIdxFrom]
    | succ j =>
      simp only [mapIdxFrom, List.getD_cons_succ, List.length_cons]
      rw [ih]
      have harith : k + (j + 1) = k + 1 + j := by omega
      rw [harith]
      by_cases hj : j < xs.length
      · simp [hj]
      · simp [hj]

theorem mapWithIndex_getD {α : Type} [Inhabited α] (f : Nat → α → α) (l : List α) (i : Nat) :
    (mapWithIndex f l).getD i default =
      if i < l.length then f i (l.getD i default) else default := by
  unfold mapWithIndex
  rw [mapIdxFrom_getD]
  simp

theorem mapWithIndex_id {α : Type} (l : List α) :
    mapWithIndex (fun _ x => x) l = l := by
  have aux : ∀ (k : Nat) (m : List α), mapIdxFrom (fun _ x => x) k m = m := by
    intro k m
    induction m generalizing k with
    | nil => rfl
    | cons x xs ih => simp only [mapIdxFrom, ih]
  exact aux 0 l

/-- Updating the rack at one index with its own current value is a no-op. -/
theorem mapWithIndex_restore (idx : Nat) (ts : List Tile) :
    ∀ (l : List Player), (idx < l.length → (l.getD idx default).tiles = ts) →
      mapWithIndex (fun i p => if i = idx then { p with tiles := ts } else p) l = l := by
  induction idx with
  | zero =>
    intro l h
    cases l with
    | nil => rfl
    | cons x xs =>
      have hx : x.tiles = ts := by simpa using h (by simp)
      show (if (0 : Nat) = 0 then { x with tiles := ts } else x) ::
        mapIdxFrom (fun i p => if i = 0 then { p with tiles := ts } else p) 1 xs = x :: xs
      rw [if_pos rfl, mapIdxFrom_shift]
      have htail := mapIdxFrom_congr
        (f := fun i (p : Player) => if i + 1 = 0 then { p with tiles := ts } else p)
        (g := fun _ p => p) (by intro i p; simp) 0 xs
      rw [htail]
      rw [← hx]
      have hx2 : { x with tiles := x.tiles } = x := rfl
      rw [hx2]
      exact congrArg (x :: ·) (mapWithIndex_id xs)
  | succ j ih =>
    intro l h
    cases l with
    | nil => rfl
    | cons x xs =>
      show (if (0 : Nat) = j + 1 then { x with tiles := ts } else x) ::
        mapIdxFrom (fun i p => if i = j + 1 then { p with tiles := ts } else p) 1 xs = x :: xs
      rw [if_neg (by omega), mapIdxFrom_shift]
      have hcong := mapIdxFrom_congr
        (f := fun i (p : Player) => if i + 1 = j + 1 then { p with tiles := ts } else p)
        (g := fun i p => if i = j then { p with tiles := ts } else p)
        (by intro i p; exact if_congr (by omega) rfl rfl) 0 xs
      rw [hcong]
      have hxs : mapWithIndex (fun i p => if i = j then { p with tiles := ts } else p) xs = xs := by
        apply ih
        intro hlen
        have := h (by simpa using Nat.succ_lt_succ hlen)
        simpa using this
      exact congrArg (x :: ·) hxs

/-! ### Permutation lemmas for the shuffle -/

theorem cons_set_perm {x b : Tile} :
    ∀ {l : List Tile} {j : Nat}, l[j]? = some b → (b :: l.set j x).Perm (x :: l) := by
  intro l
  induction l with
  | nil => intro j h; simp at h
  | cons c cs ih =>
    intro j h
    cases j with
    | zero =>
      simp only [List.getElem?_cons_zero, Option.some.injEq] at h
      show (b :: x :: cs).Perm (x :: c :: cs)
      rw [h]
      exact List.Perm.swap x b cs
    | succ k =>
      simp only [List.getElem?_cons_succ] at h
      have h1 : (b :: c :: cs.set k x).Perm (c :: b :: cs.set k x) := List.Perm.swap c b _
      have h2 : (c :: b :: cs.set k x).Perm (c :: x :: cs) := (ih h).cons c
      have h3 : (c :: x :: cs).Perm (x :: c :: cs) := List.Perm.swap x c cs
      exact (h1.trans h2).trans h3

theorem set_set_perm {a b : Tile} :
    ∀ {l : List Tile} {i j : Nat}, l[i]? = some a → l[j]? = some b →
      ((l.set i b).set j a).Perm l := by
  intro l
  induction l with
  | nil => intro i j h1 _; simp at h1
  | cons c cs ih =>
    intro i j h1 h2
    cases i with
    | zero =>
      simp only [List.getElem?_cons_zero, Option.some.injEq] at h1
      cases j with
      | zero =>
        simp only [List.getElem?_cons_zero, Option.some.injEq] at h2
        show (a :: cs).Perm (c :: cs)
        rw [← h1]
      | succ k =>
        simp only [List.getElem?_cons_succ] at h2
        show (b :: cs.set k a).Perm (c :: cs)
        rw [h1]
        exact cons_set_perm h2
    | succ m =>
      simp only [List.getElem?_cons_succ] at h1
      cases j with
      | zero =>
        simp only [List.getElem?_cons_zero, Option.some.injEq] at h2
        show (a :: cs.set m b).Perm (c :: cs)
        rw [h2]
        exact cons_set_perm h1
      | succ k =>
        simp only [List.getElem?_cons_succ] at h2
        show (c :: (cs.set m b).set k a).Perm (c :: cs)
        exact (ih h1 h2).cons c

theorem swapNth_perm (l : List Tile) (i j : Nat) : (swapNth l i j).Perm l := by
  unfold swapNth
  cases h1 : l[i]? with
  | none => exact List.Perm.refl l
  | some a =>
    cases h2 : l[j]? with
    | none => exact List.Perm.refl l
    | some b => exact set_set_perm h1 h2

theorem shuffleAux_perm (rand : Nat → Nat) :
    ∀ (n : Nat) (l : List Tile), (shuffleAux rand n l).Perm l := by
  intro n
  induction n with
  | zero => intro l; exact List.Perm.refl l
  | succ i ih =>
    intro l
    exact (ih _).trans (swapNth_perm l (i + 1) (rand (i + 1) % (i + 2)))

theorem shuffleTiles_perm (rand : Nat → Nat) (l : List Tile) :
    (shuffleTiles rand l).Perm l :=
  shuffleAux_perm rand (l.length - 1) l

/-! ### Minimum / maximum bridges for the number-sorted list -/

theorem foldl_min_le_init :
    ∀ (ts : List Tile) (a : Int), ts.foldl (fun m u => min m u.number) a ≤ a := by
  intro ts
  induction ts with
  | nil => intro a; simp
  | cons u us ih =>
    intro a
    calc (u :: us).foldl (fun m v => min m v.number) a
        = us.foldl (fun m v => min m v.number) (min a u.number) := by rw [List.foldl_cons]
      _ ≤ min a u.number := ih _
      _ ≤ a := min_le_left _ _

theorem foldl_min_le_mem :
    ∀ (ts : List Tile) (a : Int) (u : Tile), u ∈ ts →
      ts.foldl (fun m v => min m v.number) a ≤ u.number := by
  intro ts
  induction ts with
  | nil => intro a u hu; cases hu
  | cons w ws ih =>
    intro a u hu
    rw [List.foldl_cons]
    rcases List.mem_cons.mp hu with rfl | hmem
    · exact le_trans (foldl_min_le_init ws _) (min_le_right _ _)
    · exact ih _ u hmem

theorem foldl_min_eq_or :
    ∀ (ts : List Tile) (a : Int),
      ts.foldl (fun m v => min m v.number) a = a ∨
        ∃ u ∈ ts, ts.foldl (fun m v => min m v.number) a = u.number := by
  intro ts
  induction ts with
  | nil => intro a; left; rfl
  | cons w ws ih =>
    intro a
    rw [List.foldl_cons]
    rcases ih (min a w.number) with heq | ⟨u, hmem, heq⟩
    · rcases min_choice a w.number with hm | hm
      · left; rw [heq, hm]
      · right; exact ⟨w, List.mem_cons_self _ _, by rw [heq, hm]⟩
    · right; exact ⟨u, List.mem_cons_of_mem _ hmem, heq⟩

theorem listMinNumber_le {l : List Tile} : ∀ t ∈ l, listMinNumber l ≤ t.number := by
  intro t ht
  cases l with
  | nil => cases ht
  | cons x xs =>
    unfold listMinNumber
    rcases List.mem_cons.mp ht with rfl | hmem
    · exact foldl_min_le_init xs _
    · exact foldl_min_le_mem xs _ t hmem

theorem listMinNumber_mem {l : List Tile} (h : l ≠ []) :
    ∃ t ∈ l, t.number = listMinNumber l := by
  cases l with
  | nil => exact absurd rfl h
  | cons x xs =>
    unfold listMinNumber
    rcases foldl_min_eq_or xs x.number with heq | ⟨u, hmem, heq⟩
    · exact ⟨x, List.mem_cons_self _ _, heq.symm⟩
    · exact ⟨u, List.mem_cons_of_mem _ hmem, heq.symm⟩

theorem foldl_max_init_le :
    ∀ (ts : List Tile) (a : Int), a ≤ ts.foldl (fun m u => max m u.number) a := by
  intro ts
  induction ts with
  | nil => intro a; simp
  | cons u us ih =>
    intro a
    calc a ≤ max a u.number := le_max_left _ _
      _ ≤ us.foldl (fun m v => max m v.number) (max a u.number) := ih _
      _ = (u :: us).foldl (fun m v => max m v.number) a := by rw [List.foldl_cons]

theorem foldl_max_mem_le :
    ∀ (ts : List Tile) (a : Int) (u : Tile), u ∈ ts →
      u.number ≤ ts.foldl (fun m v => max m v.number) a := by
  intro ts
  induction ts with
  | nil => intro a u hu; cases hu
  | cons w ws ih =>
    intro a u hu
    rw [List.foldl_cons]
    rcases List.mem_cons.mp hu with rfl | hmem
    · exact le_trans (le_max_right _ _) (foldl_max_init_le ws _)
    · exact ih _ u hmem

theorem foldl_max_eq_or :
    ∀ (ts : List Tile) (a : Int),
      ts.foldl (fun m v => max m v.number) a = a ∨
        ∃ u ∈ ts, ts.foldl (fun m v => max m v.number) a = u.number := by
  intro ts
  induction ts with
  | nil => intro a; left; rfl
  | cons w ws ih =>
    intro a
    rw [List.foldl_cons]
    rcases ih (max a w.number) with heq | ⟨u, hmem, heq⟩
    · rcases max_choice a w.number with hm | hm
      · left; rw [heq, hm]
      · right; exact ⟨w, List.mem_cons_self _ _, by rw [heq, hm]⟩
    · right; exact ⟨u, List.mem_cons_of_mem _ hmem, heq⟩

theorem le_listMaxNumber {l : List Tile} : ∀ t ∈ l, t.number ≤ listMaxNumber l := by
  intro t ht
  cases l with
  | nil => cases ht
  | cons x xs =>
    unfold listMaxNumber
    rcases List.mem_cons.mp ht with rfl | hmem
    · exact foldl_max_init_le xs _
    · exact foldl_max_mem_le xs _ t hmem

theorem listMaxNumber_mem {l : List Tile} (h : l ≠ []) :
    ∃ t ∈ l, t.number = listMaxNumber l := by
  cases l with
  | nil => exact absurd rfl h
  | cons x xs =>
    unfold listMaxNumber
    rcases foldl_max_eq_or xs x.number with heq | ⟨u, hmem, heq⟩
    · exact ⟨x, List.mem_cons_self _ _, heq.symm⟩
    · exact ⟨u, List.mem_cons_of_mem _ hmem, heq.symm⟩

theorem sorted_head_le {s : List Tile} (hs : List.Sorted numLe s) :
    ∀ t ∈ s, firstNumber s ≤ t.number := by
  intro t ht
  cases s with
  | nil => cases ht
  | cons x xs =>
    rcases List.mem_cons.mp ht with rfl | hmem
    · exact le_refl _
    · exact (List.sorted_cons.mp hs).1 t hmem

theorem lastNumber_cons_cons (a b : Tile) (r : List Tile) :
    lastNumber (a :: b :: r) = lastNumber (b :: r) := by
  unfold lastNumber
  simp [List.getLastD_cons]

theorem sorted_le_last {s : List Tile} (hs : List.Sorted numLe s) :
    ∀ t ∈ s, t.number ≤ lastNumber s := by
  induction s with
  | nil => intro t ht; cases ht
  | cons x xs ih =>
    intro t ht
    cases xs with
    | nil =>
      rcases List.mem_cons.mp ht with rfl | hmem
      · exact le_refl _
      · cases hmem
    | cons y ys =>
      rw [lastNumber_cons_cons]
      rcases List.mem_cons.mp ht with rfl | hmem
      · have hxy : numLe t y := (List.sorted_cons.mp hs).1 y (List.mem_cons_self _ _)
        have hy := ih (List.sorted_cons.mp hs).2 y (List.mem_cons_self _ _)
        exact le_trans hxy hy
      · exact ih (List.sorted_cons.mp hs).2 t hmem

theorem sortByNumber_perm (l : List Tile) : (sortByNumber l).Perm l :=
  List.perm_insertionSort numLe l

theorem sortByNumber_sorted (l : List Tile) : List.Sorted numLe (sortByNumber l) :=
  List.sorted_insertionSort numLe l

theorem firstNumber_sortByNumber {l : List Tile} (h : l ≠ []) :
    firstNumber (sortByNumber l) = listMinNumber l := by
  have hperm := sortByNumber_perm l
  have hs := sortByNumber_sorted l
  cases hsort : sortByNumber l with
  | nil =>
    have := hperm.length_eq
    rw [hsort] at this
    cases l with
    | nil => exact absurd rfl h
    | cons a as => simp at this
  | cons x xs =>
    have hxl : x ∈ l := hperm.mem_iff.mp (by rw [hsort]; exact List.mem_cons_self _ _)
    have h1 : listMinNumber l ≤ x.number := listMinNumber_le x hxl
    obtain ⟨t, htl, htn⟩ := listMinNumber_mem h
    have hts : t ∈ sortByNumber l := hperm.mem_iff.mpr htl
    rw [hsort] at hts
    have h2 : firstNumber (x :: xs) ≤ t.number := by
      have := sorted_head_le (hsort ▸ hs) t hts
      exact this
    rw [htn] at h2
    show x.number = listMinNumber l
    exact le_antisymm (by simpa using h2) h1

theorem getLastD_mem : ∀ (l : List Tile) (d : Tile), l ≠ [] → l.getLastD d ∈ l := by
  intro l
  induction l with
  | nil => intro d h; exact absurd rfl h
  | cons x xs ih =>
    intro d _
    cases xs with
    | nil => simp [List.getLastD]
    | cons y ys =>
      rw [List.getLastD_cons]
      exact List.mem_cons_of_mem x (ih x (by simp))

theorem lastNumber_sortByNumber {l : List Tile} (h : l ≠ []) :
    lastNumber (sortByNumber l) = listMaxNumber l := by
  have hperm := sortByNumber_perm l
  have hs := sortByNumber_sorted l
  have hne : sortByNumber l ≠ [] := by
    intro hnil
    have hlen := hperm.length_eq
    rw [hnil] at hlen
    cases l with
    | nil => exact absurd rfl h
    | cons a as => simp at hlen
  obtain ⟨t, htl, htn⟩ := listMaxNumber_mem h
  have hts : t ∈ sortByNumber l := hperm.mem_iff.mpr htl
  have h2 : t.number ≤ lastNumber (sortByNumber l) := sorted_le_last hs t hts
  have hlastmem : (sortByNumber l).getLastD default ∈ sortByNumber l :=
    getLastD_mem _ default hne
  have h1 : lastNumber (sortByNumber l) ≤ listMaxNumber l :=
    le_listMaxNumber _ (hperm.mem_iff.mp hlastmem)
  exact le_antisymm h1 (by rw [← htn]; exact h2)

/-! ### Telescoping, duplicate detection, distinct counting -/

theorem gapsSum_eq : ∀ (l : List Tile), l ≠ [] →
    gapsSum l = lastNumber l - firstNumber l - ((l.length : Int) - 1) := by
  intro l
  induction l with
  | nil => intro h; exact absurd rfl h
  | cons a xs ih =>
    intro _
    cases xs with
    | nil =>
      show (0 : Int) = lastNumber [a] - firstNumber [a] - ((1 : Int) - 1)
      unfold lastNumber firstNumber
      simp [List.getLastD]
    | cons b r =>
      have hrec := ih (by simp)
      show (b.number - a.number - 1) + gapsSum (b :: r) = _
      rw [hrec, lastNumber_cons_cons]
      unfold firstNumber
      simp only [List.length_cons]
      push_cast
      ring

theorem sorted_hasAdjacentDup_iff :
    ∀ {s : List Tile}, List.Sorted numLe s →
      (hasAdjacentDupNumber s = false ↔ (s.map Tile.number).Nodup) := by
  intro s
  induction s with
  | nil => intro _; simp [hasAdjacentDupNumber]
  | cons a xs ih =>
    intro hs
    cases xs with
    | nil => simp [hasAdjacentDupNumber]
    | cons b r =>
      have hpair := List.sorted_cons.mp hs
      have htail := hpair.2
      have hhead := hpair.1
      have htailpair := List.sorted_cons.mp htail
      constructor
      · intro hfalse
        have hfparts : a.number ≠ b.number ∧ hasAdjacentDupNumber (b :: r) = false := by
          constructor
          · intro heq
            have : hasAdjacentDupNumber (a :: b :: r) = true := by
              show ((a.number == b.number) || hasAdjacentDupNumber (b :: r)) = true
              simp [heq]
            rw [this] at hfalse
            cases hfalse
          · have hexp : hasAdjacentDupNumber (a :: b :: r)
                = ((a.number == b.number) || hasAdjacentDupNumber (b :: r)) := rfl
            rw [hexp] at hfalse
            exact (Bool.or_eq_false_iff.mp hfalse).2
        have hnd := (ih htail).mp hfparts.2
        rw [List.map_cons, List.nodup_cons]
        refine ⟨?_, hnd⟩
        intro hmem
        rw [List.map_cons] at hmem
        rcases List.mem_cons.mp hmem with heq | hmem2
        · exact hfparts.1 heq
        · obtain ⟨u, hur, hueq⟩ := List.mem_map.mp hmem2
          have hab : a.number ≤ b.number := hhead b (List.mem_cons_self _ _)
          have hbu : b.number ≤ u.number := htailpair.1 u hur
          have hlt : a.number < b.number := lt_of_le_of_ne hab hfparts.1
          omega
      · intro hnd
        rw [List.map_cons, List.nodup_cons] at hnd
        have h1 : a.number ≠ b.number := by
          intro heq
          apply hnd.1
          rw [List.map_cons]
          exact List.mem_cons.mpr (Or.inl heq)
        have h2 := (ih htail).mpr hnd.2
        show ((a.number == b.number) || hasAdjacentDupNumber (b :: r)) = false
        simp [h1, h2]

theorem countDistinct_eq_one_iff {α : Type} [DecidableEq α] {l : List α} (h : l ≠ []) :
    countDistinct l = 1 ↔ ∀ a ∈ l, ∀ b ∈ l, a = b := by
  unfold countDistinct
  constructor
  · intro hlen a ha b hb
    obtain ⟨c, hc⟩ := List.length_eq_one.mp hlen
    have ha' : a ∈ l.dedup := List.mem_dedup.mpr ha
    have hb' : b ∈ l.dedup := List.mem_dedup.mpr hb
    rw [hc] at ha' hb'
    simp only [List.mem_singleton] at ha' hb'
    rw [ha', hb']
  · intro hall
    have hnd : List.Nodup (List.dedup l) := List.nodup_dedup l
    cases hdd : List.dedup l with
    | nil => exact absurd ((List.dedup_eq_nil l).mp hdd) h
    | cons x xs =>
      cases xs with
      | nil => rfl
      | cons y ys =>
        have hx : x ∈ l.dedup := by rw [hdd]; exact List.mem_cons_self _ _
        have hy : y ∈ l.dedup := by
          rw [hdd]; exact List.mem_cons_of_mem _ (List.mem_cons_self _ _)
        have hxy : x = y := hall x (List.mem_dedup.mp hx) y (List.mem_dedup.mp hy)
        rw [hdd] at hnd
        simp only [List.nodup_cons, List.mem_cons] at hnd
        exact absurd (Or.inl hxy) hnd.1

theorem filter_partition_length (tiles : List Tile) :
    (tiles.filter fun t => !t.isJoker).length + (tiles.filter (·.isJoker)).length
      = tiles.length := by
  induction tiles with
  | nil => rfl
  | cons t ts ih =>
    cases hj : t.isJoker
    · simp [List.filter_cons, hj]
      omega
    · simp [List.filter_cons, hj]
      omega

/-! ### Characterization of `isValidRun` -/

theorem isValidRun_eq_true_iff_code (tiles : List Tile) :
    isValidRun tiles = true ↔
      (¬ tiles.length < 3) ∧
      (tiles.filter fun t => !t.isJoker) ≠ [] ∧
      countDistinct ((tiles.filter fun t => !t.isJoker).map (·.color)) = 1 ∧
      hasAdjacentDupNumber (sortByNumber (tiles.filter fun t => !t.isJoker)) = false ∧
      gapsSum (sortByNumber (tiles.filter fun t => !t.isJoker))
        ≤ ((tiles.filter (·.isJoker)).length : Int) ∧
      (tiles.length : Int)
          - (lastNumber (sortByNumber (tiles.filter fun t => !t.isJoker))
              - firstNumber (sortByNumber (tiles.filter fun t => !t.isJoker)) + 1)
        = ((tiles.filter (·.isJoker)).length : Int)
            - gapsSum (sortByNumber (tiles.filter fun t => !t.isJoker)) ∧
      ((tiles.filter (·.isJoker)).length : Int)
          - gapsSum (sortByNumber (tiles.filter fun t => !t.isJoker))
        ≤ (firstNumber (sortByNumber (tiles.filter fun t => !t.isJoker)) - 1)
            + (13 - lastNumber (sortByNumber (tiles.filter fun t => !t.isJoker))) := by
  simp only [isValidRun]
  by_cases h1 : tiles.length < 3
  · rw [if_pos h1]
    simp only [Bool.false_eq_true, false_iff]
    intro hc
    exact hc.1 h1
  rw [if_neg h1]
  by_cases h2 : (List.filter (fun t => !t.isJoker) tiles).length = 0
  · rw [if_pos h2]
    simp only [Bool.false_eq_true, false_iff]
    intro hc
    exact hc.2.1 (List.length_eq_zero.mp h2)
  rw [if_neg h2]
  by_cases h3 : countDistinct
      (List.map (fun x => x.color) (List.filter (fun t => !t.isJoker) tiles)) ≠ 1
  · rw [if_pos h3]
    simp only [Bool.false_eq_true, false_iff]
    intro hc
    exact h3 hc.2.2.1
  rw [if_neg h3]
  by_cases h4 : hasAdjacentDupNumber (sortByNumber (List.filter (fun t => !t.isJoker) tiles))
      = true
  · rw [if_pos h4]
    simp only [Bool.false_eq_true, false_iff]
    intro hc
    rw [hc.2.2.2.1] at h4
    cases h4
  rw [if_neg h4]
  by_cases h5 : gapsSum (sortByNumber (List.filter (fun t => !t.isJoker) tiles))
      > ((List.filter (fun x => x.isJoker) tiles).length : Int)
  · rw [if_pos h5]
    simp only [Bool.false_eq_true, false_iff]
    intro hc
    have hc5 := hc.2.2.2.2.1
    omega
  rw [if_neg h5]
  by_cases h6 : (tiles.length : Int)
        - (lastNumber (sortByNumber (List.filter (fun t => !t.isJoker) tiles))
            - firstNumber (sortByNumber (List.filter (fun t => !t.isJoker) tiles)) + 1)
      ≠ ((List.filter (fun x => x.isJoker) tiles).length : Int)
        - gapsSum (sortByNumber (List.filter (fun t => !t.isJoker) tiles))
  · rw [if_pos h6]
    simp only [Bool.false_eq_true, false_iff]
    intro hc
    have hc6 := hc.2.2.2.2.2.1
    exact h6 hc6
  rw [if_neg h6]
  by_cases h7 : ((List.filter (fun x => x.isJoker) tiles).length : Int)
        - gapsSum (sortByNumber (List.filter (fun t => !t.isJoker) tiles))
      > (firstNumber (sortByNumber (List.filter (fun t => !t.isJoker) tiles)) - 1)
        + (13 - lastNumber (sortByNumber (List.filter (fun t => !t.isJoker) tiles)))
  · rw [if_pos h7]
    simp only [Bool.false_eq_true, false_iff]
    intro hc
    have hc7 := hc.2.2.2.2.2.2
    omega
  rw [if_neg h7]
  simp only [true_iff]
  refine ⟨h1, fun hnil => h2 (by rw [hnil]; rfl), by omega, by simpa using h4,
    by omega, by omega, by omega⟩

/-- Color uniformity via the distinct count. -/
theorem distinct_colors_iff {tiles : List Tile}
    (hne : (tiles.filter fun t => !t.isJoker) ≠ []) :
    countDistinct ((tiles.filter fun t => !t.isJoker).map (·.color)) = 1 ↔
      ∀ a ∈ tiles.filter fun t => !t.isJoker, ∀ b ∈ tiles.filter fun t => !t.isJoker,
        a.color = b.color := by
  have hmapne : (tiles.filter fun t => !t.isJoker).map (·.color) ≠ [] := by
    simpa using hne
  rw [countDistinct_eq_one_iff hmapne]
  constructor
  · intro h a ha b hb
    exact h _ (List.mem_map_of_mem _ ha) _ (List.mem_map_of_mem _ hb)
  · intro h x hx y hy
    obtain ⟨a, ha, rfl⟩ := List.mem_map.mp hx
    obtain ⟨b, hb, rfl⟩ := List.mem_map.mp hy
    exact h a ha b hb

/-- Duplicate detection via sortedness and the number multiset. -/
theorem adjacentDup_iff_nodup (tiles : List Tile) :
    hasAdjacentDupNumber (sortByNumber (tiles.filter fun t => !t.isJoker)) = false ↔
      ((tiles.filter fun t => !t.isJoker).map Tile.number).Nodup := by
  rw [sorted_hasAdjacentDup_iff (sortByNumber_sorted _)]
  exact ((sortByNumber_perm _).map Tile.number).nodup_iff

/-- The head, last and gap-sum of the sorted suited tiles agree with the
specification's min, max and span-based gap count. -/
theorem run_quantities (tiles : List Tile)
    (hne : (tiles.filter fun t => !t.isJoker) ≠ []) :
    firstNumber (sortByNumber (tiles.filter fun t => !t.isJoker)) = minSuitedNumber tiles ∧
    lastNumber (sortByNumber (tiles.filter fun t => !t.isJoker)) = maxSuitedNumber tiles ∧
    gapsSum (sortByNumber (tiles.filter fun t => !t.isJoker)) = gapsNeededSpec tiles := by
  have h1 := firstNumber_sortByNumber hne
  have h2 := lastNumber_sortByNumber hne
  have hlen : (sortByNumber (tiles.filter fun t => !t.isJoker)).length
      = (tiles.filter fun t => !t.isJoker).length := (sortByNumber_perm _).length_eq
  have hsrtne : sortByNumber (tiles.filter fun t => !t.isJoker) ≠ [] := by
    intro hnil
    rw [hnil] at hlen
    exact hne (List.length_eq_zero.mp hlen.symm)
  have h3 := gapsSum_eq _ hsrtne
  refine ⟨h1, h2, ?_⟩
  rw [h3, h1, h2, hlen]
  unfold gapsNeededSpec minSuitedNumber maxSuitedNumber
  ring

/-- Claim C7: `isValidRun` returns false for fewer than 3 tiles, zero suited
tiles, more than one suit, or duplicate suited numbers; otherwise it returns
true exactly when the jokers fill the gaps between consecutive sorted suited
numbers and the leftover jokers extend the sequence within 1-13 so that the
arranged length equals the input count. -/
theorem C7_isValidRun_characterization (tiles : List Tile) :
    isValidRun tiles = true ↔ runSpec tiles := by
  rw [isValidRun_eq_true_iff_code]
  unfold runSpec
  constructor
  · rintro ⟨h1, h2, h3, h4, h5, h6, h7⟩
    obtain ⟨q1, q2, q3⟩ := run_quantities tiles h2
    simp only [q1, q2, q3] at h5 h6 h7
    refine ⟨by omega, h2, (distinct_colors_iff h2).mp h3,
      (adjacentDup_iff_nodup tiles).mp h4, h5, ?_, ?_⟩
    · unfold jokersToExtendSpec
      omega
    · unfold jokersToExtendSpec
      omega
  · rintro ⟨s1, s2, s3, s4, s5, s6, s7⟩
    obtain ⟨q1, q2, q3⟩ := run_quantities tiles s2
    unfold jokersToExtendSpec at s6 s7
    refine ⟨by omega, s2, (distinct_colors_iff s2).mpr s3,
      (adjacentDup_iff_nodup tiles).mpr s4, ?_, ?_, ?_⟩
    · rw [q3]; exact s5
    · simp only [q1, q2, q3]; omega
    · simp only [q1, q2, q3]; omega

/-- Witness for C7: the run 5-6-7 of one suit is valid, and the
characterization applies to it. -/
theorem C7_witness : isValidRun run567 = true ∧ runSpec run567 :=
  ⟨by decide, (C7_isValidRun_characterization run567).mp (by decide)⟩

/-- Claim C6: for a valid run, `calculateSetValue` sums all integers of the
realized span, with joker extension preferring lower numbers first; and the
extension falls entirely after the suited tiles only when the suited minimum
is 1. -/
theorem C6_run_value (tiles : List Tile) (h : isValidRun tiles = true) :
    calculateSetValue tiles =
      intRangeSum (minSuitedNumber tiles - extendBeforeSpec tiles)
        (maxSuitedNumber tiles + extendAfterSpec tiles) ∧
    (1 ≤ jokersToExtendSpec tiles → extendBeforeSpec tiles = 0 →
      minSuitedNumber tiles = 1) := by
  have hcode := (isValidRun_eq_true_iff_code tiles).mp h
  have hne := hcode.2.1
  obtain ⟨q1, q2, q3⟩ := run_quantities tiles hne
  constructor
  · unfold calculateSetValue
    rw [if_pos h]
    simp only [calculateRunValue]
    rw [if_neg (fun hzero => hne (List.length_eq_zero.mp hzero))]
    have hjc : (tiles.length : Int) - ((tiles.filter fun t => !t.isJoker).length : Int)
        = ((tiles.filter (·.isJoker)).length : Int) := by
      have := filter_partition_length tiles
      omega
    rw [q1, q2, q3, hjc]
    unfold extendBeforeSpec extendAfterSpec jokersToExtendSpec
    rfl
  · intro hJ hmin
    unfold extendBeforeSpec at hmin
    rcases le_total (jokersToExtendSpec tiles) (minSuitedNumber tiles - 1) with hle | hle
    · rw [min_eq_left hle] at hmin
      omega
    · rw [min_eq_right hle] at hmin
      omega

/-- Witness for C6: the run 7-red, 8-red, joker resolves the joker to 6 and
has value 6+7+8 = 21. -/
theorem C6_witness :
    isValidRun run78Joker = true ∧ calculateSetValue run78Joker = 21 ∧
      intRangeSum (minSuitedNumber run78Joker - extendBeforeSpec run78Joker)
        (maxSuitedNumber run78Joker + extendAfterSpec run78Joker) = 21 := by
  refine ⟨by decide, ?_, by decide⟩
  rw [(C6_run_value run78Joker (by decide)).1]
  decide

/-! ### Selection toggling (C10) and drawTile (C8) -/

theorem selectTile_selectedTiles (s : GameState) (t : Tile) :
    (Engine.selectTile s t).selectedTiles = toggleTiles s.selectedTiles t := by
  unfold Engine.selectTile toggleTiles
  by_cases h : s.selectedTiles.any fun x => x.id == t.id
  · rw [if_pos h, if_pos h]
  · rw [if_neg h, if_neg h]

theorem selectTile_frame (s : GameState) (t : Tile) :
    Engine.selectTile s t = { s with selectedTiles := (Engine.selectTile s t).selectedTiles } := by
  unfold Engine.selectTile
  by_cases h : s.selectedTiles.any fun x => x.id == t.id
  · rw [if_pos h]
  · rw [if_neg h]

theorem selectBoardTile_selectedBoardTiles (s : GameState) (t : Tile)
    (hm : (Engine.currentPlayerOf s).hasPlayedInitialMeld = true) :
    (Engine.selectBoardTile s t).selectedBoardTiles = toggleTiles s.selectedBoardTiles t := by
  unfold Engine.selectBoardTile toggleTiles
  rw [if_neg (by rw [hm]; intro hc; cases hc)]
  by_cases h : s.selectedBoardTiles.any fun x => x.id == t.id
  · rw [if_pos h, if_pos h]
  · rw [if_neg h, if_neg h]

theorem selectBoardTile_frame (s : GameState) (t : Tile)
    (hm : (Engine.currentPlayerOf s).hasPlayedInitialMeld = true) :
    Engine.selectBoardTile s t
      = { s with selectedBoardTiles := (Engine.selectBoardTile s t).selectedBoardTiles } := by
  unfold Engine.selectBoardTile
  rw [if_neg (by rw [hm]; intro hc; cases hc)]
  by_cases h : s.selectedBoardTiles.any fun x => x.id == t.id
  · rw [if_pos h]
  · rw [if_neg h]

/-- Double toggling preserves the set of selected ids. -/
theorem toggleTiles_toggleTiles_idset (l : List Tile) (t : Tile) :
    ∀ n : Nat, (∃ x ∈ toggleTiles (toggleTiles l t) t, x.id = n) ↔ (∃ x ∈ l, x.id = n) := by
  intro n
  unfold toggleTiles
  by_cases h : l.any fun x => x.id == t.id
  · rw [if_pos h]
    have hany2 : ((l.filter fun x => x.id != t.id).any fun x => x.id == t.id) = false := by
      rw [Bool.eq_false_iff]
      intro hc
      obtain ⟨x, hx, hxid⟩ := List.any_eq_true.mp hc
      have := List.of_mem_filter hx
      simp only [bne_iff_ne, ne_eq] at this
      exact this (by simpa using hxid)
    rw [if_neg (by rw [hany2]; intro hc; cases hc)]
    constructor
    · rintro ⟨x, hx, rfl⟩
      rcases List.mem_append.mp hx with hx1 | hx2
      · exact ⟨x, List.mem_of_mem_filter hx1, rfl⟩
      · obtain ⟨y, hy, hyid⟩ := List.any_eq_true.mp h
        simp only [List.mem_singleton] at hx2
        subst hx2
        exact ⟨y, hy, by simpa using hyid⟩
    · rintro ⟨x, hx, rfl⟩
      by_cases hxt : x.id = t.id
      · refine ⟨t, List.mem_append.mpr (Or.inr (List.mem_singleton_self t)), hxt.symm⟩
      · refine ⟨x, List.mem_append.mpr (Or.inl ?_), rfl⟩
        exact List.mem_filter.mpr ⟨hx, by simpa using hxt⟩
  · rw [if_neg h]
    have hany2 : ((l ++ [t]).any fun x => x.id == t.id) = true :=
      List.any_eq_true.mpr ⟨t, List.mem_append.mpr (Or.inr (List.mem_singleton_self t)), by simp⟩
    rw [if_pos hany2]
    have hfilter : ((l ++ [t]).filter fun x => x.id != t.id) = l.filter fun x => x.id != t.id := by
      rw [List.filter_append]
      simp
    rw [hfilter]
    have hleq : (l.filter fun x => x.id != t.id) = l := by
      apply List.filter_eq_self.mpr
      intro x hx
      have hxne : x.id ≠ t.id := by
        intro hc
        exact h (List.any_eq_true.mpr ⟨x, hx, by simp [hc]⟩)
      simpa using hxne
    rw [hleq]

/-- Claim C10: selection toggling is self-inverse on the set of selected ids
and changes only the corresponding selection field; board-tile selection
behaves the same once the acting player has satisfied the initial meld. -/
theorem C10_selection_toggle (s : GameState) (t : Tile) :
    (∀ n : Nat,
      (∃ x ∈ (Engine.selectTile (Engine.selectTile s t) t).selectedTiles, x.id = n) ↔
        (∃ x ∈ s.selectedTiles, x.id = n)) ∧
    Engine.selectTile s t = { s with selectedTiles := (Engine.selectTile s t).selectedTiles } ∧
    ((Engine.currentPlayerOf s).hasPlayedInitialMeld = true →
      (∀ n : Nat,
        (∃ x ∈ (Engine.selectBoardTile (Engine.selectBoardTile s t) t).selectedBoardTiles,
          x.id = n) ↔ (∃ x ∈ s.selectedBoardTiles, x.id = n)) ∧
      Engine.selectBoardTile s t
        = { s with selectedBoardTiles := (Engine.selectBoardTile s t).selectedBoardTiles }) := by
  refine ⟨?_, selectTile_frame s t, ?_⟩
  · intro n
    rw [selectTile_selectedTiles, selectTile_selectedTiles]
    exact toggleTiles_toggleTiles_idset s.selectedTiles t n
  · intro hm
    have hm2 : (Engine.currentPlayerOf (Engine.selectBoardTile s t)).hasPlayedInitialMeld
        = true := by
      rw [selectBoardTile_frame s t hm]
      exact hm
    refine ⟨?_, selectBoardTile_frame s t hm⟩
    intro n
    rw [selectBoardTile_selectedBoardTiles _ t hm2, selectBoardTile_selectedBoardTiles s t hm]
    exact toggleTiles_toggleTiles_idset s.selectedBoardTiles t n

/-- Witness for C10: toggling a tile twice in a concrete state restores the
selected-id sets, and the board path applies once the meld is satisfied. -/
theorem C10_witness :
    (∀ n : Nat,
      (∃ x ∈ (Engine.selectTile (Engine.selectTile c10State (mkTile 600 .red 4))
          (mkTile 600 .red 4)).selectedTiles, x.id = n) ↔
        (∃ x ∈ c10State.selectedTiles, x.id = n)) ∧
    Engine.selectBoardTile c10State (mkTile 600 .red 4)
      = { c10State with
            selectedBoardTiles :=
              (Engine.selectBoardTile c10State (mkTile 600 .red 4)).selectedBoardTiles } :=
  ⟨(C10_selection_toggle c10State (mkTile 600 .red 4)).1,
   ((C10_selection_toggle c10State (mkTile 600 .red 4)).2.2 (by decide)).2⟩

/-- Counterexample for C8: `drawTile` does not clear the board-tile
selection — in a state with a nonempty pool and a selected board tile, the
selection survives the draw unchanged. -/
theorem C8_counterexample :
    (Engine.drawTile c8State).selectedBoardTiles = c8State.selectedBoardTiles ∧
    (Engine.drawTile c8State).selectedBoardTiles ≠ [] := by
  constructor
  · rfl
  · decide

/-- Claim C8 (amended): `drawTile` is the identity on an empty pool;
otherwise it removes the front pool tile, appends it to the acting player's
rack re-sorted by color then number, clears the rack-tile selection and the
staged sets, and leaves the board-tile selection, the other players, the
board and the game phase unchanged. -/
theorem C8_drawTile (s : GameState) (hidx : s.currentPlayerIndex < s.players.length) :
    (s.pool = [] → Engine.drawTile s = s) ∧
    (∀ t rest, s.pool = t :: rest →
      (Engine.drawTile s).pool = rest ∧
      ((Engine.drawTile s).players.getD s.currentPlayerIndex default).tiles
        = sortTilesByColorAndNumber
            ((s.players.getD s.currentPlayerIndex default).tiles ++ [t]) ∧
      ((Engine.drawTile s).players.getD s.currentPlayerIndex default).tiles.Perm
        (t :: (s.players.getD s.currentPlayerIndex default).tiles) ∧
      List.Sorted tileColorNumLe
        ((Engine.drawTile s).players.getD s.currentPlayerIndex default).tiles ∧
      (∀ i, i ≠ s.currentPlayerIndex →
        (Engine.drawTile s).players.getD i default = s.players.getD i default) ∧
      (Engine.drawTile s).selectedTiles = [] ∧
      (Engine.drawTile s).stagedSets = [] ∧
      (Engine.drawTile s).selectedBoardTiles = s.selectedBoardTiles ∧
      (Engine.drawTile s).board = s.board ∧
      (Engine.drawTile s).gamePhase = s.gamePhase) := by
  constructor
  · intro hpool
    unfold Engine.drawTile
    rw [hpool]
  · intro t rest hpool
    have hdraw : Engine.drawTile s =
        { s with
            players := mapWithIndex (fun index player =>
              if index = s.currentPlayerIndex then
                { player with
                    tiles := sortTilesByColorAndNumber (player.tiles ++ [t]) }
              else player) s.players
            pool := rest
            selectedTiles := []
            stagedSets := [] } := by
      unfold Engine.drawTile
      rw [hpool]
    rw [hdraw]
    have hget : (mapWithIndex (fun index player =>
        if index = s.currentPlayerIndex then
          { player with tiles := sortTilesByColorAndNumber (player.tiles ++ [t]) }
        else player) s.players).getD s.currentPlayerIndex default
        = { s.players.getD s.currentPlayerIndex default with
              tiles := sortTilesByColorAndNumber
                ((s.players.getD s.currentPlayerIndex default).tiles ++ [t]) } := by
      rw [mapWithIndex_getD]
      rw [if_pos hidx, if_pos rfl]
    refine ⟨rfl, ?_, ?_, ?_, ?_, rfl, rfl, rfl, rfl, rfl⟩
    · rw [hget]
    · rw [hget]
      show (sortTilesByColorAndNumber _).Perm _
      refine (List.perm_insertionSort tileColorNumLe _).trans ?_
      exact List.perm_append_singleton t _
    · rw [hget]
      exact List.sorted_insertionSort tileColorNumLe _
    · intro i hi
      rw [mapWithIndex_getD]
      by_cases hlen : i < s.players.length
      · rw [if_pos hlen, if_neg hi]
      · rw [if_neg hlen]
        rw [List.getD_eq_default _ _ (by omega)]

/-- Witness for C8: drawing in a concrete state removes the front pool
tile, re-sorts the acting rack, and leaves the board selection alone. -/
theorem C8_witness :
    (Engine.drawTile c8State).pool = [mkTile 301 .blue 10] ∧
    ((Engine.drawTile c8State).players.getD 0 default).tiles.Perm
      (mkTile 300 .blue 9 :: (c8State.players.getD 0 default).tiles) ∧
    (Engine.drawTile c8State).selectedBoardTiles = c8State.selectedBoardTiles := by
  have h := (C8_drawTile c8State (by decide)).2 (mkTile 300 .blue 9) [mkTile 301 .blue 10] rfl
  exact ⟨h.1, h.2.2.1, h.2.2.2.2.2.2.2.1⟩

/-! ### Analysis of `commitAllStagedSets` and `endTurn` -/

theorem commit_ok_fields (s s' : GameState) (h : Engine.commitAllStagedSets s = .ok s') :
    s'.players = s.players ∧ s'.currentPlayerIndex = s.currentPlayerIndex ∧
    s'.consecutivePasses = s.consecutivePasses ∧
    s'.pointsPlayedThisTurn = s.pointsPlayedThisTurn + (s.stagedSets.map (·.value)).sum ∧
    s'.board = boardAfterCommit s ∧ s'.stagedSets = [] ∧
    s'.gamePhase = s.gamePhase ∧ s'.pool = s.pool := by
  simp only [Engine.commitAllStagedSets] at h
  split at h
  · cases h
  · split at h
    · cases h
    · simp only [Except.ok.injEq] at h
      subst h
      exact ⟨rfl, rfl, rfl, rfl, rfl, rfl, rfl, rfl⟩

theorem commitStep_ok (s cs : GameState)
    (h : (if s.stagedSets.length > 0 then Engine.commitAllStagedSets s else .ok s) = .ok cs) :
    cs.players = s.players ∧ cs.currentPlayerIndex = s.currentPlayerIndex ∧
    cs.consecutivePasses = s.consecutivePasses ∧
    cs.pointsPlayedThisTurn = pointsAfterCommit s ∧
    cs.gamePhase = s.gamePhase := by
  by_cases hst : s.stagedSets.length > 0
  · rw [if_pos hst] at h
    obtain ⟨h1, h2, h3, h4, _, _, h7, _⟩ := commit_ok_fields s cs h
    exact ⟨h1, h2, h3, h4, h7⟩
  · rw [if_neg hst] at h
    simp only [Except.ok.injEq] at h
    subst h
    have hnil : s.stagedSets = [] := by
      cases hss : s.stagedSets with
      | nil => rfl
      | cons a l => rw [hss] at hst; simp at hst
    refine ⟨rfl, rfl, rfl, ?_, rfl⟩
    unfold pointsAfterCommit
    rw [hnil]
    simp

/-- The per-player function `endTurn` applies before deciding the outcome:
set the meld flag of the acting player when 30+ points were played. -/
theorem endTurn_ok_spec (s : GameState) (d : Bool) (s' : GameState)
    (h : Engine.endTurn s d = .ok s') :
    validateBoard s'.board = true ∧
    s'.players = mapWithIndex (fun index player =>
      if index = s.currentPlayerIndex ∧ pointsAfterCommit s ≥ 30 then
        { player with hasPlayedInitialMeld := true }
      else player) s.players ∧
    ((s.players.getD s.currentPlayerIndex default).tiles ≠ [] →
      (s'.consecutivePasses =
        if pointsAfterCommit s > 0 ∨ d = true then 0 else s.consecutivePasses + 1) ∧
      (¬(pointsAfterCommit s > 0 ∨ d = true) →
        s.consecutivePasses + 1 ≥ s.players.length →
        s'.gamePhase = .ended ∧
          s'.winner = some (Engine.findWinnerByLowestTiles s'.players))) := by
  simp only [Engine.endTurn] at h
  split at h
  · cases h
  case h_2 cs hcs =>
    obtain ⟨hp, hi, hc, hpts, hg⟩ := commitStep_ok s cs hcs
    split at h
    · cases h
    split at h
    · cases h
    -- common facts
    have hupd : mapWithIndex (fun index player =>
        if index = cs.currentPlayerIndex ∧ cs.pointsPlayedThisTurn ≥ 30 then
          { player with hasPlayedInitialMeld := true }
        else player) cs.players
        = mapWithIndex (fun index player =>
            if index = s.currentPlayerIndex ∧ pointsAfterCommit s ≥ 30 then
              { player with hasPlayedInitialMeld := true }
            else player) s.players := by
      rw [hp]
      apply mapWithIndex_congr
      intro i p
      exact if_congr (by rw [hi, hpts]) rfl rfl
    rename_i hval hmeld
    have hvt : validateBoard cs.board = true := by
      cases hb : validateBoard cs.board
      · exact absurd hb hval
      · rfl
    have htiles : ∀ i, ((mapWithIndex (fun index player =>
        if index = cs.currentPlayerIndex ∧ cs.pointsPlayedThisTurn ≥ 30 then
          { player with hasPlayedInitialMeld := true }
        else player) cs.players).getD i default).tiles
        = ((cs.players.getD i default)).tiles := by
      intro i
      rw [mapWithIndex_getD]
      by_cases hlen : i < cs.players.length
      · rw [if_pos hlen]
        by_cases hcnd : i = cs.currentPlayerIndex ∧ cs.pointsPlayedThisTurn ≥ 30
        · rw [if_pos hcnd]
        · rw [if_neg hcnd]
      · rw [if_neg hlen]
        rw [List.getD_eq_default _ _ (by omega)]
    split at h
    · -- empty-rack win branch
      rename_i hwin
      simp only [Except.ok.injEq] at h
      subst h
      refine ⟨hvt, hupd, ?_⟩
      intro hrack
      exfalso
      rw [htiles] at hwin
      rw [hp, hi] at hwin
      exact hrack (List.length_eq_zero.mp hwin)
    split at h
    case isTrue htook =>
      split at h
      case isTrue hge0 =>
        simp only [Except.ok.injEq] at h
        subst h
        refine ⟨hvt, hupd, ?_⟩
        intro _
        refine ⟨?_, ?_⟩
        · show (0 : Nat)
              = if pointsAfterCommit s > 0 ∨ d = true then 0 else s.consecutivePasses + 1
          rw [if_pos (by rw [← hpts]; exact htook)]
        · intro hno _
          exfalso
          rw [hpts] at htook
          exact hno htook
      case isFalse hlt0 =>
        simp only [Except.ok.injEq] at h
        subst h
        refine ⟨hvt, hupd, ?_⟩
        intro _
        refine ⟨?_, ?_⟩
        · show (0 : Nat)
              = if pointsAfterCommit s > 0 ∨ d = true then 0 else s.consecutivePasses + 1
          rw [if_pos (by rw [← hpts]; exact htook)]
        · intro hno _
          exfalso
          rw [hpts] at htook
          exact hno htook
    case isFalse htook =>
      split at h
      case isTrue hge =>
        simp only [Except.ok.injEq] at h
        subst h
        refine ⟨hvt, hupd, ?_⟩
        intro _
        refine ⟨?_, ?_⟩
        · show cs.consecutivePasses + 1
              = if pointsAfterCommit s > 0 ∨ d = true then 0 else s.consecutivePasses + 1
          rw [if_neg (by rw [← hpts]; exact htook), hc]
        · intro _ _
          exact ⟨rfl, rfl⟩
      case isFalse hlt =>
        simp only [Except.ok.injEq] at h
        subst h
        refine ⟨hvt, hupd, ?_⟩
        intro _
        refine ⟨?_, ?_⟩
        · show cs.consecutivePasses + 1
              = if pointsAfterCommit s > 0 ∨ d = true then 0 else s.consecutivePasses + 1
          rw [if_neg (by rw [← hpts]; exact htook), hc]
        · intro hno hge
          exfalso
          rw [hc, hp] at hlt
          omega

/-- Counterexample for C3: a successful `commitAllStagedSets` can leave an
invalid set on the board — staging a board tile into a new group leaves a
2-tile remnant set, and the commit succeeds without re-checking the board. -/
theorem C3_counterexample :
    (Engine.commitAllStagedSets (Engine.stageCurrentSelection 77 c3State)).toOption.map
      (fun s => validateBoard s.board) = some false := by
  decide

/-- Claim C3 (amended): board-wide validity is guaranteed by `endTurn`, not
by `commitAllStagedSets` — every successful `endTurn` returns a state whose
board sets are all legal runs or groups. -/
theorem C3_endTurn_board_valid (s : GameState) (d : Bool) (s' : GameState)
    (h : Engine.endTurn s d = .ok s') : validateBoard s'.board = true :=
  (endTurn_ok_spec s d s' h).1

/-- Witness for C3: a concrete successful `endTurn` with a valid board. -/
theorem C3_witness :
    ∃ s', Engine.endTurn quietState false = Except.ok s' ∧ validateBoard s'.board = true := by
  cases hE : Engine.endTurn quietState false with
  | error e =>
    have hsome : (Engine.endTurn quietState false).toOption.isSome = true := by decide
    rw [hE] at hsome
    cases hsome
  | ok s' => exact ⟨s', rfl, C3_endTurn_board_valid quietState false s' hE⟩

/-! ### The winner fold (C4) -/

theorem fold_firstMin :
    ∀ (l : List Player) (w : Player),
      (l.foldl (fun acc p =>
        let total := Engine.calculatePlayerTileTotal p
        if total < acc.2 then (p, total) else acc)
        (w, Engine.calculatePlayerTileTotal w)).1
      = firstMinPlayer w l := by
  intro l
  induction l with
  | nil => intro w; rfl
  | cons p ps ih =>
    intro w
    rw [List.foldl_cons]
    show (ps.foldl _ (if Engine.calculatePlayerTileTotal p < Engine.calculatePlayerTileTotal w
        then (p, Engine.calculatePlayerTileTotal p)
        else (w, Engine.calculatePlayerTileTotal w))).1 = _
    have hfm : firstMinPlayer w (p :: ps)
        = if Engine.calculatePlayerTileTotal p < Engine.calculatePlayerTileTotal w
          then firstMinPlayer p ps else firstMinPlayer w ps := rfl
    by_cases hlt : Engine.calculatePlayerTileTotal p < Engine.calculatePlayerTileTotal w
    · rw [if_pos hlt]
      show (ps.foldl _ (p, Engine.calculatePlayerTileTotal p)).1 = _
      rw [ih p, hfm, if_pos hlt]
    · rw [if_neg hlt]
      show (ps.foldl _ (w, Engine.calculatePlayerTileTotal w)).1 = _
      rw [ih w, hfm, if_neg hlt]

theorem firstMinPlayer_spec :
    ∀ (l : List Player) (w : Player),
      ∃ i, i ≤ l.length ∧ firstMinPlayer w l = (w :: l).getD i default ∧
        (∀ j, j ≤ l.length →
          Engine.calculatePlayerTileTotal (firstMinPlayer w l)
            ≤ Engine.calculatePlayerTileTotal ((w :: l).getD j default)) ∧
        (∀ j, j < i →
          Engine.calculatePlayerTileTotal (firstMinPlayer w l)
            < Engine.calculatePlayerTileTotal ((w :: l).getD j default)) := by
  intro l
  induction l with
  | nil =>
    intro w
    refine ⟨0, Nat.le_refl 0, rfl, ?_, ?_⟩
    · intro j hj
      have hj0 : j = 0 := Nat.le_zero.mp hj
      subst hj0
      exact le_refl _
    · intro j hj
      omega
  | cons p ps ih =>
    intro w
    have hfm : firstMinPlayer w (p :: ps)
        = if Engine.calculatePlayerTileTotal p < Engine.calculatePlayerTileTotal w
          then firstMinPlayer p ps else firstMinPlayer w ps := rfl
    by_cases hlt : Engine.calculatePlayerTileTotal p < Engine.calculatePlayerTileTotal w
    · have hres : firstMinPlayer w (p :: ps) = firstMinPlayer p ps := by
        rw [hfm, if_pos hlt]
      obtain ⟨i, hile, heq, hmin, hearly⟩ := ih p
      refine ⟨i + 1, by simpa using hile, by rw [hres]; exact heq, ?_, ?_⟩
      · intro j hj
        cases j with
        | zero =>
          have h0 := hmin 0 (Nat.zero_le _)
          rw [hres]
          calc Engine.calculatePlayerTileTotal (firstMinPlayer p ps)
              ≤ Engine.calculatePlayerTileTotal p := h0
            _ ≤ Engine.calculatePlayerTileTotal w := le_of_lt hlt
        | succ j' =>
          rw [hres]
          exact hmin j' (by (try simp only [List.length_cons] at *); omega)
      · intro j hj
        cases j with
        | zero =>
          have h0 := hmin 0 (Nat.zero_le _)
          rw [hres]
          calc Engine.calculatePlayerTileTotal (firstMinPlayer p ps)
              ≤ Engine.calculatePlayerTileTotal p := h0
            _ < Engine.calculatePlayerTileTotal w := hlt
        | succ j' =>
          rw [hres]
          exact hearly j' (by (try simp only [List.length_cons] at *); omega)
    · have hres : firstMinPlayer w (p :: ps) = firstMinPlayer w ps := by
        rw [hfm, if_neg hlt]
      obtain ⟨i, hile, heq, hmin, hearly⟩ := ih w
      cases i with
      | zero =>
        refine ⟨0, Nat.zero_le _, by rw [hres]; exact heq, ?_, ?_⟩
        · intro j hj
          cases j with
          | zero =>
            rw [hres]
            exact hmin 0 (Nat.zero_le _)
          | succ j' =>
            cases j' with
            | zero =>
              rw [hres]
              calc Engine.calculatePlayerTileTotal (firstMinPlayer w ps)
                  ≤ Engine.calculatePlayerTileTotal w := hmin 0 (Nat.zero_le _)
                _ ≤ Engine.calculatePlayerTileTotal p := le_of_not_lt hlt
            | succ j'' =>
              rw [hres]
              exact hmin (j'' + 1) (by (try simp only [List.length_cons] at *); omega)
        · intro j hj
          omega
      | succ k =>
        refine ⟨k + 2, by (try simp only [List.length_cons] at *); omega, by rw [hres]; exact heq, ?_, ?_⟩
        · intro j hj
          cases j with
          | zero =>
            rw [hres]
            exact hmin 0 (Nat.zero_le _)
          | succ j' =>
            cases j' with
            | zero =>
              rw [hres]
              calc Engine.calculatePlayerTileTotal (firstMinPlayer w ps)
                  ≤ Engine.calculatePlayerTileTotal w := hmin 0 (Nat.zero_le _)
                _ ≤ Engine.calculatePlayerTileTotal p := le_of_not_lt hlt
            | succ j'' =>
              rw [hres]
              exact hmin (j'' + 1) (by (try simp only [List.length_cons] at *); omega)
        · intro j hj
          cases j with
          | zero =>
            rw [hres]
            exact hearly 0 (by (try simp only [List.length_cons] at *); omega)
          | succ j' =>
            cases j' with
            | zero =>
              rw [hres]
              calc Engine.calculatePlayerTileTotal (firstMinPlayer w ps)
                  < Engine.calculatePlayerTileTotal w := hearly 0 (by (try simp only [List.length_cons] at *); omega)
                _ ≤ Engine.calculatePlayerTileTotal p := le_of_not_lt hlt
            | succ j'' =>
              rw [hres]
              exact hearly (j'' + 1) (by (try simp only [List.length_cons] at *); omega)

theorem findWinner_isEarliestMin (players : List Player) (hne : players ≠ []) :
    isEarliestMinWinner players (Engine.findWinnerByLowestTiles players) := by
  cases players with
  | nil => exact absurd rfl hne
  | cons p0 rest =>
    have hfm0 : firstMinPlayer p0 (p0 :: rest)
        = if Engine.calculatePlayerTileTotal p0 < Engine.calculatePlayerTileTotal p0
          then firstMinPlayer p0 rest else firstMinPlayer p0 rest := rfl
    have hfw : Engine.findWinnerByLowestTiles (p0 :: rest) = firstMinPlayer p0 rest := by
      have h1 : Engine.findWinnerByLowestTiles (p0 :: rest)
          = ((p0 :: rest).foldl (fun acc p =>
              let total := Engine.calculatePlayerTileTotal p
              if total < acc.2 then (p, total) else acc)
            (p0, Engine.calculatePlayerTileTotal p0)).1 := rfl
      rw [h1, fold_firstMin, hfm0, if_neg (lt_irrefl _)]
    rw [hfw]
    obtain ⟨i, hile, heq, hmin, hearly⟩ := firstMinPlayer_spec rest p0
    exact ⟨i, by simpa using Nat.lt_succ_of_le hile, heq,
      fun j hj => hmin j (by simpa using Nat.lt_succ_iff.mp hj),
      hearly⟩

/-- Claim C4: the pass counter increments at a successful `endTurn` exactly
when the turn placed zero points and drew no tile, resets to 0 otherwise,
and when the incremented counter reaches the 4-player count the game ends
in a stalemate won by the earliest-index player of minimum rack valuation
(suited tiles at face value, jokers at 30). -/
theorem C4_pass_counter (s : GameState) (d : Bool) (s' : GameState)
    (h : Engine.endTurn s d = .ok s')
    (hrack : (s.players.getD s.currentPlayerIndex default).tiles ≠ [])
    (hplayers : s.players.length = 4) :
    (s'.consecutivePasses =
      if pointsAfterCommit s > 0 ∨ d = true then 0 else s.consecutivePasses + 1) ∧
    (¬(pointsAfterCommit s > 0 ∨ d = true) → s.consecutivePasses + 1 ≥ 4 →
      s'.gamePhase = .ended ∧
        ∃ w, s'.winner = some w ∧ isEarliestMinWinner s'.players w) := by
  obtain ⟨_, hplayers', hcond⟩ := endTurn_ok_spec s d s' h
  obtain ⟨hpass, hstale⟩ := hcond hrack
  refine ⟨hpass, ?_⟩
  intro hno hge
  obtain ⟨hended, hwinner⟩ := hstale hno (by omega)
  refine ⟨hended, Engine.findWinnerByLowestTiles s'.players, hwinner, ?_⟩
  apply findWinner_isEarliestMin
  intro hnil
  have hlen : s'.players.length = s.players.length := by
    rw [hplayers']
    exact mapWithIndex_length _ _
  rw [hnil, hplayers] at hlen
  simp at hlen

/-- Witness for C4: in a concrete state with three recorded passes, a no-op
`endTurn` stalemates the game with the earliest minimum-valuation player. -/
theorem C4_witness :
    ∃ s', Engine.endTurn c4State false = Except.ok s' ∧
      s'.gamePhase = .ended ∧
      ∃ w, s'.winner = some w ∧ isEarliestMinWinner s'.players w := by
  cases hE : Engine.endTurn c4State false with
  | error e =>
    have hsome : (Engine.endTurn c4State false).toOption.isSome = true := by decide
    rw [hE] at hsome
    cases hsome
  | ok s' =>
    have h4 := C4_pass_counter c4State false s' hE (by decide) (by decide)
    obtain ⟨hended, hw⟩ := h4.2 (by decide) (by decide)
    exact ⟨s', rfl, hended, hw⟩

/-! ### Monotonicity of the initial-meld flags (C5) -/

theorem playersFlagsMono_refl (l : List Player) : playersFlagsMono l l :=
  fun _ h => h

theorem playersFlagsMono_trans {a b c : List Player}
    (h1 : playersFlagsMono a b) (h2 : playersFlagsMono b c) : playersFlagsMono a c :=
  fun i h => h2 i (h1 i h)

theorem playersFlagsMono_of_eq {a b : List Player} (h : b = a) : playersFlagsMono a b := by
  rw [h]
  exact playersFlagsMono_refl a

theorem mapWithIndex_flagsMono {f : Nat → Player → Player}
    (hf : ∀ i p, p.hasPlayedInitialMeld = true → (f i p).hasPlayedInitialMeld = true)
    (l : List Player) : playersFlagsMono l (mapWithIndex f l) := by
  intro i hflag
  rw [mapWithIndex_getD]
  by_cases hlen : i < l.length
  · rw [if_pos hlen]
    exact hf i _ hflag
  · rw [if_neg hlen]
    rw [List.getD_eq_default _ _ (by omega)] at hflag
    exact hflag

/-- Rack updates never clear a meld flag. -/
theorem tilesUpdate_flag {p : Player} (ts : List Tile)
    (h : p.hasPlayedInitialMeld = true) :
    ({ p with tiles := ts } : Player).hasPlayedInitialMeld = true := h

theorem startTurn_mono (s : GameState) : flagsMono s (Engine.startTurn s) :=
  playersFlagsMono_refl _

theorem drawTile_mono (s : GameState) : flagsMono s (Engine.drawTile s) := by
  unfold Engine.drawTile
  cases s.pool with
  | nil => exact playersFlagsMono_refl _
  | cons t rest =>
    apply mapWithIndex_flagsMono
    intro i p hp
    by_cases hc : i = s.currentPlayerIndex
    · rw [if_pos hc]
      exact hp
    · rw [if_neg hc]
      exact hp

theorem selectTile_mono (s : GameState) (t : Tile) : flagsMono s (Engine.selectTile s t) := by
  show playersFlagsMono s.players (Engine.selectTile s t).players
  rw [selectTile_frame s t]
  exact playersFlagsMono_refl _

theorem selectBoardTile_mono (s : GameState) (t : Tile) :
    flagsMono s (Engine.selectBoardTile s t) := by
  unfold Engine.selectBoardTile
  by_cases hg : (Engine.currentPlayerOf s).hasPlayedInitialMeld = false
  · rw [if_pos hg]
    exact playersFlagsMono_refl _
  · rw [if_neg hg]
    by_cases hi : s.selectedBoardTiles.any fun x => x.id == t.id
    · rw [if_pos hi]
      exact playersFlagsMono_refl _
    · rw [if_neg hi]
      exact playersFlagsMono_refl _

theorem stageCurrentSelection_mono (fid : Nat) (s : GameState) :
    flagsMono s (Engine.stageCurrentSelection fid s) := by
  unfold Engine.stageCurrentSelection
  by_cases hsel : s.selectedTiles.isEmpty ∧ s.selectedBoardTiles.isEmpty
  · rw [if_pos hsel]
    exact playersFlagsMono_refl _
  · rw [if_neg hsel]
    apply mapWithIndex_flagsMono
    intro i p hp
    by_cases hc : i = s.currentPlayerIndex
    · rw [if_pos hc]
      exact hp
    · rw [if_neg hc]
      exact hp

theorem unstageSingleSet_mono (s : GameState) (setId : Nat) :
    flagsMono s (Engine.unstageSingleSet s setId) := by
  unfold Engine.unstageSingleSet
  cases hfind : s.stagedSets.find? fun ss => ss.id == setId with
  | none => exact playersFlagsMono_refl _
  | some setToRemove =>
    apply mapWithIndex_flagsMono
    intro i p hp
    by_cases hc : i = s.currentPlayerIndex
    · rw [if_pos hc]
      exact hp
    · rw [if_neg hc]
      exact hp

theorem unstageAllSets_mono (s : GameState) : flagsMono s (Engine.unstageAllSets s) := by
  unfold Engine.unstageAllSets
  by_cases hsel : s.stagedSets.isEmpty
  · rw [if_pos hsel]
    exact playersFlagsMono_refl _
  · rw [if_neg hsel]
    apply mapWithIndex_flagsMono
    intro i p hp
    by_cases hc : i = s.currentPlayerIndex
    · rw [if_pos hc]
      exact hp
    · rw [if_neg hc]
      exact hp

theorem commit_mono (s s' : GameState) (h : Engine.commitAllStagedSets s = .ok s') :
    flagsMono s s' :=
  playersFlagsMono_of_eq (commit_ok_fields s s' h).1

theorem endTurn_mono (s : GameState) (d : Bool) (s' : GameState)
    (h : Engine.endTurn s d = .ok s') : flagsMono s s' := by
  show playersFlagsMono s.players s'.players
  rw [(endTurn_ok_spec s d s' h).2.1]
  apply mapWithIndex_flagsMono
  intro i p hp
  by_cases hc : i = s.currentPlayerIndex ∧ pointsAfterCommit s ≥ 30
  · rw [if_pos hc]
  · rw [if_neg hc]
    exact hp

theorem cancelTurn_mono (s : GameState) : flagsMono s (Engine.cancelTurn s) := by
  unfold Engine.cancelTurn
  apply mapWithIndex_flagsMono
  intro i p hp
  by_cases hc : i = s.currentPlayerIndex
  · rw [if_pos hc]
    exact hp
  · rw [if_neg hc]
    exact hp

theorem endAITurn_players_of_eq :
    ∀ (s : GameState) (b : Bool) (s' : GameState),
      AI.endAITurn s b = s' → s'.players = s.players := by
  intro s b s' h
  simp only [AI.endAITurn] at h
  split at h
  · split at h
    · subst h; rfl
    · subst h; rfl
  · split at h
    · subst h; rfl
    · subst h; rfl

theorem endAITurn_players (s : GameState) (b : Bool) : (AI.endAITurn s b).players = s.players :=
  endAITurn_players_of_eq s b _ rfl

/-- A rack-filter update of the acting player preserves all meld flags. -/
theorem filterUpdate_flag_pres (idx : Nat) (ids : List Nat) :
    ∀ (i : Nat) (p : Player), p.hasPlayedInitialMeld = true →
      ((if i = idx then { p with tiles := p.tiles.filter fun t => !ids.contains t.id }
        else p) : Player).hasPlayedInitialMeld = true := by
  intro i p hp
  by_cases hc : i = idx
  · rw [if_pos hc]
    exact hp
  · rw [if_neg hc]
    exact hp

/-- Setting the acting player's meld flag preserves all meld flags. -/
theorem meldUpdate_flag_pres (idx : Nat) :
    ∀ (i : Nat) (p : Player), p.hasPlayedInitialMeld = true →
      ((if i = idx then { p with hasPlayedInitialMeld := true } else p) :
        Player).hasPlayedInitialMeld = true := by
  intro i p hp
  by_cases hc : i = idx
  · rw [if_pos hc]
  · rw [if_neg hc]
    exact hp

/-- A sorted-append update of the acting player preserves all meld flags. -/
theorem sortUpdate_flag_pres (idx : Nat) (t : Tile) :
    ∀ (i : Nat) (p : Player), p.hasPlayedInitialMeld = true →
      ((if i = idx then { p with tiles := sortTilesByColorAndNumber (p.tiles ++ [t]) }
        else p) : Player).hasPlayedInitialMeld = true := by
  intro i p hp
  by_cases hc : i = idx
  · rw [if_pos hc]
    exact hp
  · rw [if_neg hc]
    exact hp

theorem aiMeldLoop_mono_inl :
    ∀ (fuel : Nat) (cs : GameState) (tp : Int) (fs : GameState),
      AI.aiMeldLoop fuel cs tp = Sum.inl fs → playersFlagsMono cs.players fs.players := by
  intro fuel
  induction fuel with
  | zero =>
    intro cs tp fs h
    simp only [AI.aiMeldLoop] at h
    exact Sum.noConfusion h
  | succ n ih =>
    intro cs tp fs h
    simp only [AI.aiMeldLoop] at h
    split at h
    · exact Sum.noConfusion h
    case h_2 play tail hplays =>
      split at h
      case isTrue hwin =>
        simp only [Sum.inl.injEq] at h
        subst h
        show playersFlagsMono cs.players
          (mapWithIndex (fun index player =>
            if index = cs.currentPlayerIndex then { player with hasPlayedInitialMeld := true }
            else player)
            (mapWithIndex (fun index player =>
              if index = cs.currentPlayerIndex then
                { player with
                    tiles := player.tiles.filter fun t => !((play.tiles.map (·.id)).contains t.id) }
              else player) cs.players))
        exact playersFlagsMono_trans
          (mapWithIndex_flagsMono (filterUpdate_flag_pres cs.currentPlayerIndex _) cs.players)
          (mapWithIndex_flagsMono (meldUpdate_flag_pres cs.currentPlayerIndex) _)
      case isFalse hwin =>
        refine playersFlagsMono_trans
          (mapWithIndex_flagsMono (filterUpdate_flag_pres cs.currentPlayerIndex
            (play.tiles.map (·.id))) cs.players) ?_
        exact ih _ _ fs h

theorem aiMeldLoop_mono_inr :
    ∀ (fuel : Nat) (cs : GameState) (tp : Int) (cs' : GameState) (tp' : Int),
      AI.aiMeldLoop fuel cs tp = Sum.inr (cs', tp') →
        playersFlagsMono cs.players cs'.players := by
  intro fuel
  induction fuel with
  | zero =>
    intro cs tp cs' tp' h
    simp only [AI.aiMeldLoop, Sum.inr.injEq, Prod.mk.injEq] at h
    exact playersFlagsMono_of_eq (congrArg GameState.players h.1.symm)
  | succ n ih =>
    intro cs tp cs' tp' h
    simp only [AI.aiMeldLoop] at h
    split at h
    · simp only [Sum.inr.injEq, Prod.mk.injEq] at h
      exact playersFlagsMono_of_eq (congrArg GameState.players h.1.symm)
    case h_2 play tail hplays =>
      split at h
      case isTrue hwin => exact Sum.noConfusion h
      case isFalse hwin =>
        refine playersFlagsMono_trans
          (mapWithIndex_flagsMono (filterUpdate_flag_pres cs.currentPlayerIndex
            (play.tiles.map (·.id))) cs.players) ?_
        exact ih _ _ cs' tp' h

theorem executeAIInitialMeld_mono (s : GameState) :
    flagsMono s (AI.executeAIInitialMeld s) := by
  generalize hE : AI.executeAIInitialMeld s = s2
  simp only [AI.executeAIInitialMeld] at hE
  split at hE
  case h_1 fs hres =>
    subst hE
    exact aiMeldLoop_mono_inl 10 { s with pointsPlayedThisTurn := 0 } 0 fs hres
  case h_2 cs' tp' hres =>
    have hmid : playersFlagsMono s.players cs'.players :=
      aiMeldLoop_mono_inr 10 { s with pointsPlayedThisTurn := 0 } 0 cs' tp' hres
    split at hE
    case isTrue h30 =>
      subst hE
      show playersFlagsMono s.players _
      rw [endAITurn_players]
      exact playersFlagsMono_trans hmid
        (mapWithIndex_flagsMono (meldUpdate_flag_pres cs'.currentPlayerIndex) cs'.players)
    case isFalse h30 =>
      split at hE
      · subst hE
        exact playersFlagsMono_of_eq (endAITurn_players s false)
      case h_2 drawnTile remainingPool hpool =>
        subst hE
        show playersFlagsMono s.players _
        rw [endAITurn_players]
        exact mapWithIndex_flagsMono (sortUpdate_flag_pres s.currentPlayerIndex drawnTile)
          s.players

theorem tryMoreAIPlays_mono :
    ∀ (n : Nat) (s : GameState) (depth : Nat), 11 - depth ≤ n →
      flagsMono s (AI.tryMoreAIPlays s depth) := by
  intro n
  induction n with
  | zero =>
    intro s depth hle
    generalize hE : AI.tryMoreAIPlays s depth = s2
    rw [AI.tryMoreAIPlays.eq_def] at hE
    rw [if_pos (by omega)] at hE
    subst hE
    exact playersFlagsMono_refl _
  | succ n ih =>
    intro s depth hle
    generalize hE : AI.tryMoreAIPlays s depth = s2
    rw [AI.tryMoreAIPlays.eq_def] at hE
    by_cases hd : depth > 10
    · rw [if_pos hd] at hE
      subst hE
      exact playersFlagsMono_refl _
    · rw [if_neg hd] at hE
      simp only [] at hE
      split at hE
      · subst hE
        exact playersFlagsMono_refl _
      split at hE
      · -- a direct play exists
        rename_i selectedPlay tail hplays
        split at hE
        · subst hE
          exact playersFlagsMono_refl _
        · split at hE
          · -- rack emptied: game won
            subst hE
            exact mapWithIndex_flagsMono
              (filterUpdate_flag_pres s.currentPlayerIndex (selectedPlay.tiles.map (·.id)))
              s.players
          · -- recurse deeper
            refine playersFlagsMono_trans
              (mapWithIndex_flagsMono
                (filterUpdate_flag_pres s.currentPlayerIndex (selectedPlay.tiles.map (·.id)))
                s.players) ?_
            rw [← hE]
            exact ih { s with
              players := mapWithIndex (fun index player =>
                if index = s.currentPlayerIndex then
                  { player with tiles := player.tiles.filter fun t =>
                      !(selectedPlay.tiles.map (·.id)).contains t.id }
                else player) s.players,
              board := s.board ++ [{ id := genSetId, tiles := selectedPlay.tiles }],
              pointsPlayedThisTurn := s.pointsPlayedThisTurn + selectedPlay.value }
              (depth + 1) (by omega)
      · -- no direct play: try a rearrangement
        split at hE
        · split at hE
          · rename_i rearrangement hfound
            split at hE
            · split at hE
              · subst hE
                exact playersFlagsMono_refl _
              · split at hE
                · subst hE
                  exact mapWithIndex_flagsMono
                    (filterUpdate_flag_pres s.currentPlayerIndex
                      (rearrangement.handTilesUsed.map (·.id))) s.players
                · refine playersFlagsMono_trans
                    (mapWithIndex_flagsMono
                      (filterUpdate_flag_pres s.currentPlayerIndex
                        (rearrangement.handTilesUsed.map (·.id))) s.players) ?_
                  rw [← hE]
                  exact ih { s with
                    players := mapWithIndex (fun index player =>
                      if index = s.currentPlayerIndex then
                        { player with tiles := player.tiles.filter fun t =>
                            !(rearrangement.handTilesUsed.map (·.id)).contains t.id }
                      else player) s.players,
                    board := rearrangement.newBoard,
                    pointsPlayedThisTurn :=
                      s.pointsPlayedThisTurn + (rearrangement.tilesPlayed : Int) * 5 }
                    (depth + 1) (by omega)
            · subst hE
              exact playersFlagsMono_refl _
          · subst hE
            exact playersFlagsMono_refl _
        · subst hE
          exact playersFlagsMono_refl _

/-- `tryMoreAIPlays` at depth 0 never clears a meld flag. -/
theorem tryMore_mono0 (x : GameState) : flagsMono x (AI.tryMoreAIPlays x 0) :=
  tryMoreAIPlays_mono 11 x 0 (by omega)

theorem executeAIRegularTurn_mono (s : GameState) :
    flagsMono s (AI.executeAIRegularTurn s) := by
  generalize hE : AI.executeAIRegularTurn s = s2
  simp only [AI.executeAIRegularTurn] at hE
  split at hE
  case h_1 selectedPlay tail hplays =>
    split at hE
    case isTrue hempty =>
      subst hE
      exact mapWithIndex_flagsMono
        (filterUpdate_flag_pres s.currentPlayerIndex (selectedPlay.tiles.map (·.id)))
        s.players
    case isFalse hempty =>
      subst hE
      show playersFlagsMono s.players _
      rw [endAITurn_players]
      refine playersFlagsMono_trans
        (mapWithIndex_flagsMono
          (filterUpdate_flag_pres s.currentPlayerIndex (selectedPlay.tiles.map (·.id)))
          s.players) ?_
      exact tryMore_mono0 { s with
        players := mapWithIndex (fun index player =>
          if index = s.currentPlayerIndex then
            { player with tiles := player.tiles.filter fun t =>
                !(selectedPlay.tiles.map (·.id)).contains t.id }
          else player) s.players,
        board := s.board ++ [{ id := genSetId, tiles := selectedPlay.tiles }],
        pointsPlayedThisTurn := s.pointsPlayedThisTurn + selectedPlay.value }
  case h_2 hplays =>
    split at hE
    case h_1 sres hres =>
      -- a rearrangement produced a state
      subst hE
      split at hres
      case isTrue hb =>
        split at hres
        case h_1 rearrangement hfound =>
          split at hres
          case isTrue hplayed =>
            split at hres
            case isTrue hempty =>
              simp only [Option.some.injEq] at hres
              subst hres
              exact mapWithIndex_flagsMono
                (filterUpdate_flag_pres s.currentPlayerIndex
                  (rearrangement.handTilesUsed.map (·.id))) s.players
            case isFalse hempty =>
              simp only [Option.some.injEq] at hres
              subst hres
              show playersFlagsMono s.players _
              rw [endAITurn_players]
              refine playersFlagsMono_trans
                (mapWithIndex_flagsMono
                  (filterUpdate_flag_pres s.currentPlayerIndex
                    (rearrangement.handTilesUsed.map (·.id))) s.players) ?_
              exact tryMore_mono0 { s with
                players := mapWithIndex (fun index player =>
                  if index = s.currentPlayerIndex then
                    { player with tiles := player.tiles.filter fun t =>
                        !(rearrangement.handTilesUsed.map (·.id)).contains t.id }
                  else player) s.players,
                board := rearrangement.newBoard,
                pointsPlayedThisTurn :=
                  s.pointsPlayedThisTurn + (rearrangement.tilesPlayed : Int) * 5 }
          case isFalse hplayed => cases hres
        case h_2 hfound => cases hres
      case isFalse hb => cases hres
    case h_2 hres =>
      split at hE
      · subst hE
        exact playersFlagsMono_of_eq (endAITurn_players s false)
      case h_2 drawnTile remainingPool hpool =>
        subst hE
        show playersFlagsMono s.players _
        rw [endAITurn_players]
        exact mapWithIndex_flagsMono (sortUpdate_flag_pres s.currentPlayerIndex drawnTile)
          s.players

theorem executeAITurn_mono (s : GameState) : flagsMono s (AI.executeAITurn s) := by
  unfold AI.executeAITurn
  by_cases hm : (s.players.getD s.currentPlayerIndex default).hasPlayedInitialMeld = false
  · rw [if_pos hm]
    exact executeAIInitialMeld_mono s
  · rw [if_neg hm]
    exact executeAIRegularTurn_mono s

/-- `endAITurn` never changes the board. -/
theorem endAITurn_board (s : GameState) (b : Bool) : (AI.endAITurn s b).board = s.board := by
  simp only [AI.endAITurn]
  split <;> split <;> rfl

/-- Counterexample for C2: on `c2State` the pre-meld greedy loop places one
set worth 6 points (falling through below the 30-point threshold), yet the
state returned by `executeAITurn` has an empty board: the provisional set
was rolled back, contrary to the claim. -/
theorem C2_counterexample :
    (Sum.elim (fun fs => fs.board.length) (fun p => p.1.board.length)
        (AI.aiMeldLoop 10 { c2State with pointsPlayedThisTurn := 0 } 0) = 1) ∧
    (Sum.elim (fun _ => (30 : Int)) (fun p => p.2)
        (AI.aiMeldLoop 10 { c2State with pointsPlayedThisTurn := 0 } 0) = 6) ∧
    (AI.executeAITurn c2State).board = [] ∧ c2State.board = [] := by
  refine ⟨by decide, by decide, ?_, by decide⟩
  decide

/-- Claim C2 (amended): when the acting player is pre-meld and the greedy
loop falls through with a total below 30, `executeAITurn` discards the
loop's provisional state entirely — it draws or passes from the original
state, so the returned board equals the board the turn started with. -/
theorem C2_rollback (s cs : GameState) (total : Int)
    (hmeld : flagAt s s.currentPlayerIndex = false)
    (hloop : AI.aiMeldLoop 10 { s with pointsPlayedThisTurn := 0 } 0 = Sum.inr (cs, total))
    (hlt : total < 30) :
    (AI.executeAITurn s).board = s.board := by
  have hmeld' : (s.players.getD s.currentPlayerIndex default).hasPlayedInitialMeld = false :=
    hmeld
  simp only [AI.executeAITurn]
  rw [if_pos hmeld']
  simp only [AI.executeAIInitialMeld]
  rw [hloop]
  simp only []
  rw [if_neg (by omega)]
  cases hpool : s.pool with
  | nil =>
    simp only []
    rw [endAITurn_board]
  | cons t r =>
    simp only []
    rw [endAITurn_board]

/-- Witness for C2: the rollback equation at the concrete fixture. -/
theorem C2_witness : (AI.executeAITurn c2State).board = c2State.board :=
  C2_rollback c2State c2Mid 6 (by decide) rfl (by decide)

/-- Claim C9: `executeAITurn` is a total function of the embedding — every
state yields a result; the pre-meld greedy loop exhausts its fuel (10
iterations from the top), `tryMoreAIPlays` returns its input immediately
beyond depth 10, and `getCombinations` returns the empty enumeration as
soon as the requested size exceeds the list length. -/
theorem C9_totality :
    (∀ s : GameState, ∃ s', AI.executeAITurn s = s') ∧
    (∀ (s : GameState) (t : Int), AI.aiMeldLoop 0 s t = Sum.inr (s, t)) ∧
    (∀ (s : GameState) (d : Nat), 10 < d → AI.tryMoreAIPlays s d = s) ∧
    (∀ (arr : List Tile) (k : Nat), arr.length < k → AI.getCombinations arr k = []) := by
  refine ⟨fun s => ⟨_, rfl⟩, fun s t => rfl, ?_, ?_⟩
  · intro s d hd
    rw [AI.tryMoreAIPlays.eq_def, if_pos hd]
  · intro arr k hk
    cases k with
    | zero => exact absurd hk (Nat.not_lt_zero _)
    | succ j =>
      simp only [AI.getCombinations]
      rw [if_pos hk]

/-- Witness for C9: the caps at concrete inputs. -/
theorem C9_witness :
    (∃ s', AI.executeAITurn quietState = s') ∧
    AI.aiMeldLoop 0 quietState 0 = Sum.inr (quietState, 0) ∧
    AI.tryMoreAIPlays quietState 11 = quietState ∧
    AI.getCombinations [] 3 = [] :=
  ⟨C9_totality.1 quietState, C9_totality.2.1 quietState 0,
   C9_totality.2.2.1 quietState 11 (by decide), C9_totality.2.2.2 [] 3 (by decide)⟩

/-- When every staged set carries a `true` validity flag, the commit
succeeds with the expected record. -/
theorem commit_of_valid (s : GameState)
    (hv : ∀ ss ∈ s.stagedSets, ss.isValid = true) (hst : s.stagedSets.length > 0) :
    Engine.commitAllStagedSets s = .ok { s with
      board := boardAfterCommit s
      stagedSets := []
      turnState := .selecting
      pointsPlayedThisTurn := pointsAfterCommit s } := by
  have hfil : s.stagedSets.filter (fun ss => !ss.isValid) = [] := by
    rw [List.filter_eq_nil]
    intro a ha
    simp [hv a ha]
  simp only [Engine.commitAllStagedSets]
  rw [if_neg, if_neg]
  · rfl
  · rw [hfil]
    simp
  · intro hemp
    rw [List.isEmpty_iff] at hemp
    rw [hemp] at hst
    simp at hst

/-- The meld-threshold error branch of `endTurn`. -/
theorem endTurn_threshold_error (s : GameState) (d : Bool)
    (hm : flagAt s s.currentPlayerIndex = false)
    (hv : ∀ ss ∈ s.stagedSets, ss.isValid = true)
    (hb : validateBoard (boardAfterCommit s) = true)
    (h0 : 0 < pointsAfterCommit s) (h30 : pointsAfterCommit s < 30) :
    Engine.endTurn s d = .error ("Initial meld must total at least 30 points. You have played "
      ++ toString (pointsAfterCommit s) ++ " points. Play more sets or cancel.") := by
  simp only [Engine.endTurn]
  by_cases hst : s.stagedSets.length > 0
  · rw [if_pos hst, commit_of_valid s hv hst]
    simp only [Engine.currentPlayerOf]
    rw [if_neg (by simp [hb])]
    rw [if_pos ⟨hm, h0, h30⟩]
  · rw [if_neg hst]
    have hnil : s.stagedSets = [] := by
      cases hss : s.stagedSets with
      | nil => rfl
      | cons a l => rw [hss] at hst; simp at hst
    have hb' : validateBoard s.board = true := by
      have : boardAfterCommit s = s.board := by simp [boardAfterCommit, hnil]
      rw [← this]; exact hb
    have hp' : pointsAfterCommit s = s.pointsPlayedThisTurn := by
      simp [pointsAfterCommit, hnil]
    simp only [Engine.currentPlayerOf]
    rw [if_neg (by simp [hb'])]
    rw [if_pos ⟨hm, by rw [← hp']; exact h0, by rw [← hp']; exact h30⟩]
    rw [hp']

/-- A turn with no staged sets and zero points succeeds on a valid board. -/
theorem endTurn_ok_of_quiet (s : GameState) (d : Bool)
    (hst : s.stagedSets = []) (hp : s.pointsPlayedThisTurn = 0)
    (hb : validateBoard s.board = true) :
    ∃ s', Engine.endTurn s d = .ok s' := by
  simp only [Engine.endTurn]
  rw [if_neg (by rw [hst]; simp)]
  simp only [Engine.currentPlayerOf]
  rw [if_neg (by simp [hb])]
  rw [if_neg (by rw [hp]; simp)]
  split
  · exact ⟨_, rfl⟩
  · split <;> (split <;> exact ⟨_, rfl⟩)

/-- A successful `endTurn` with 30+ points sets the acting player's flag. -/
theorem endTurn_sets_flag (s : GameState) (d : Bool) (s' : GameState)
    (h : Engine.endTurn s d = .ok s') (hidx : s.currentPlayerIndex < s.players.length)
    (h30 : pointsAfterCommit s ≥ 30) :
    flagAt s' s.currentPlayerIndex = true := by
  obtain ⟨-, hpl, -⟩ := endTurn_ok_spec s d s' h
  unfold flagAt
  rw [hpl, mapWithIndex_getD, if_pos hidx, if_pos ⟨rfl, h30⟩]

/-- Every public transition preserves already-set initial-meld flags. -/
theorem step_flagsMono (s s' : GameState) (h : Step s s') : flagsMono s s' := by
  cases h
  case startTurn => exact startTurn_mono s
  case drawTile => exact drawTile_mono s
  case selectTile t => exact selectTile_mono s t
  case selectBoardTile t => exact selectBoardTile_mono s t
  case stageCurrentSelection fid => exact stageCurrentSelection_mono fid s
  case unstageSingleSet setId => exact unstageSingleSet_mono s setId
  case unstageAllSets => exact unstageAllSets_mono s
  case commitAllStagedSets h => exact commit_mono s s' h
  case endTurn d h => exact endTurn_mono s d s' h
  case cancelTurn => exact cancelTurn_mono s
  case executeAITurn => exact executeAITurn_mono s

/-- Claim C5: on a valid board with the acting player's initial meld pending,
`endTurn` fails with the threshold error whenever the committed points p
satisfy 0 < p < 30 (the error return leaves the caller's state untouched);
p = 0 does not fail for this reason; a successful `endTurn` with p ≥ 30 sets
the acting player's `hasPlayedInitialMeld` flag; and no public transition
ever clears a set flag. -/
theorem C5_initial_meld_rule :
    (∀ (s : GameState) (d : Bool), flagAt s s.currentPlayerIndex = false →
      (∀ ss ∈ s.stagedSets, ss.isValid = true) →
      validateBoard (boardAfterCommit s) = true →
      0 < pointsAfterCommit s → pointsAfterCommit s < 30 →
      Engine.endTurn s d = .error ("Initial meld must total at least 30 points. You have played "
        ++ toString (pointsAfterCommit s) ++ " points. Play more sets or cancel.")) ∧
    (∀ (s : GameState) (d : Bool), s.stagedSets = [] → s.pointsPlayedThisTurn = 0 →
      validateBoard s.board = true → ∃ s', Engine.endTurn s d = .ok s') ∧
    (∀ (s : GameState) (d : Bool) (s' : GameState), Engine.endTurn s d = .ok s' →
      s.currentPlayerIndex < s.players.length → pointsAfterCommit s ≥ 30 →
      flagAt s' s.currentPlayerIndex = true) ∧
    (∀ (s s' : GameState), Step s s' → flagsMono s s') :=
  ⟨endTurn_threshold_error, endTurn_ok_of_quiet, endTurn_sets_flag, step_flagsMono⟩

/-- Witness for C5: the threshold error at 6 points, a quiet success, the
flag set at 30 points, and monotonicity across a concrete step. -/
theorem C5_witness :
    (Engine.endTurn c5StateA false = .error ("Initial meld must total at least 30 points. You have played "
      ++ toString (pointsAfterCommit c5StateA) ++ " points. Play more sets or cancel.")) ∧
    (∃ s', Engine.endTurn quietState false = .ok s') ∧
    flagAt c5ResultC 0 = true ∧
    flagsMono c4State (Engine.startTurn c4State) :=
  ⟨C5_initial_meld_rule.1 c5StateA false (by decide) (by decide) (by decide)
      (by decide) (by decide),
   C5_initial_meld_rule.2.1 quietState false rfl rfl (by decide),
   C5_initial_meld_rule.2.2.1 c5StateC false c5ResultC rfl (by decide) (by decide),
   C5_initial_meld_rule.2.2.2 c4State _ (Step.startTurn c4State)⟩

/-- Permutations preserve a kind's count. -/
theorem countKind_perm {l l' : List Tile} (h : List.Perm l l') (c : TileColor) (n : Int) :
    countKind c n l = countKind c n l' :=
  h.countP_eq _

/-- Sorting preserves a kind's count. -/
theorem countKind_sort (c : TileColor) (n : Int) (l : List Tile) :
    countKind c n (sortTilesByColorAndNumber l) = countKind c n l :=
  countKind_perm (List.perm_insertionSort _ l) c n

/-- A take/drop split preserves a kind's count. -/
theorem countKind_split (k : Nat) (l : List Tile) (c : TileColor) (n : Int) :
    countKind c n l = countKind c n (l.take k) + countKind c n (l.drop k) := by
  unfold countKind
  conv_lhs => rw [← List.take_append_drop k l]
  rw [List.countP_append]

/-- Structure of the initial state: four players dealt 14 sorted tiles each
off the shuffled pool, the remainder as the draw pool, empty board and
staged sets, player 0 to act. -/
theorem createInitial_struct (rand : Nat → Nat) :
    (Engine.createInitialGameState rand).players =
      [{ id := 0, name := Engine.playerName 0,
         tiles := sortTilesByColorAndNumber ((shuffleTiles rand createTilePool).take 14),
         hasPlayedInitialMeld := false, isAI := false },
       { id := 1, name := Engine.playerName 1,
         tiles := sortTilesByColorAndNumber
           (((shuffleTiles rand createTilePool).drop 14).take 14),
         hasPlayedInitialMeld := false, isAI := true },
       { id := 2, name := Engine.playerName 2,
         tiles := sortTilesByColorAndNumber
           ((((shuffleTiles rand createTilePool).drop 14).drop 14).take 14),
         hasPlayedInitialMeld := false, isAI := true },
       { id := 3, name := Engine.playerName 3,
         tiles := sortTilesByColorAndNumber
           (((((shuffleTiles rand createTilePool).drop 14).drop 14).drop 14).take 14),
         hasPlayedInitialMeld := false, isAI := true }] ∧
    (Engine.createInitialGameState rand).pool =
      ((((shuffleTiles rand createTilePool).drop 14).drop 14).drop 14).drop 14 ∧
    (Engine.createInitialGameState rand).board = [] ∧
    (Engine.createInitialGameState rand).stagedSets = [] ∧
    (Engine.createInitialGameState rand).currentPlayerIndex = 0 := by
  unfold Engine.createInitialGameState
  simp only []
  generalize shuffleTiles rand createTilePool = l
  exact ⟨rfl, rfl, trivial, trivial, trivial⟩

/-- Tile conservation holds at the initial state for every kind. -/
theorem C1_init_conservation (rand : Nat → Nat) (c : TileColor) (n : Int) :
    totalKindCount c n (Engine.createInitialGameState rand) = countKind c n createTilePool := by
  obtain ⟨hp, hq, hb, hst, -⟩ := createInitial_struct rand
  unfold totalKindCount
  rw [hp, hq, hb, hst]
  simp only [List.map_cons, List.map_nil, List.sum_cons, List.sum_nil]
  rw [countKind_sort, countKind_sort, countKind_sort, countKind_sort]
  have e0 := countKind_split 14 (shuffleTiles rand createTilePool) c n
  have e1 := countKind_split 14 ((shuffleTiles rand createTilePool).drop 14) c n
  have e2 := countKind_split 14 (((shuffleTiles rand createTilePool).drop 14).drop 14) c n
  have e3 := countKind_split 14
    ((((shuffleTiles rand createTilePool).drop 14).drop 14).drop 14) c n
  have hsh := countKind_perm (shuffleTiles_perm rand createTilePool) c n
  omega

/-- `drawTile` on a nonempty pool. -/
theorem drawTile_cons (s : GameState) (t : Tile) (rest : List Tile) (h : s.pool = t :: rest) :
    Engine.drawTile s = { s with
      players := mapWithIndex (fun index player =>
        if index = s.currentPlayerIndex then
          { player with tiles := sortTilesByColorAndNumber (player.tiles ++ [t]) }
        else player) s.players
      pool := rest
      selectedTiles := []
      stagedSets := [] } := by
  simp only [Engine.drawTile]
  rw [h]

/-- A draw followed by a cancel: the rack is restored to its snapshot and
the board to its snapshot, but the pool has permanently lost its front
tile. -/
theorem drawCancel_counts (s : GameState) (t : Tile) (rest : List Tile)
    (hpool : s.pool = t :: rest)
    (hidx : s.currentPlayerIndex < s.players.length) (c : TileColor) (n : Int) :
    totalKindCount c n (Engine.cancelTurn (Engine.drawTile (Engine.startTurn s)))
      = countKind c n rest
        + ((s.players.map fun p => countKind c n p.tiles).sum
          + (s.board.map fun b => countKind c n b.tiles).sum) := by
  have hD := drawTile_cons (Engine.startTurn s) t rest hpool
  rw [hD]
  simp only [totalKindCount, Engine.cancelTurn, Engine.startTurn, Engine.currentPlayerOf]
  rw [mapWithIndex_comp]
  have hfun : (fun (i : Nat) (x : Player) =>
      (fun i p => if i = s.currentPlayerIndex then
          { p with tiles := (s.players.getD s.currentPlayerIndex default).tiles } else p) i
        ((fun i p => if i = s.currentPlayerIndex then
          { p with tiles := sortTilesByColorAndNumber (p.tiles ++ [t]) } else p) i x)) =
      (fun (i : Nat) (x : Player) => if i = s.currentPlayerIndex then
          { x with tiles := (s.players.getD s.currentPlayerIndex default).tiles } else x) := by
    funext i x
    by_cases hi : i = s.currentPlayerIndex
    · simp only [if_pos hi]
    · simp only [if_neg hi]
  rw [hfun]
  rw [mapWithIndex_restore s.currentPlayerIndex _ s.players (fun _ => rfl)]
  simp only [List.map_nil, List.sum_nil]
  omega

/-- Claim C1 (code bug): tile conservation holds at the initial state for
every kind, but is violated by the reachable sequence start-turn, draw,
cancel: `cancelTurn` restores the board and the acting player's rack to the
turn-start snapshots without restoring the pool, so the drawn tile's kind
loses one copy. -/
theorem C1_conservation_bug (rand : Nat → Nat) :
    (∀ (c : TileColor) (n : Int),
      totalKindCount c n (Engine.createInitialGameState rand) = countKind c n createTilePool) ∧
    (∃ (c : TileColor) (n : Int),
      totalKindCount c n (Engine.cancelTurn (Engine.drawTile (Engine.startTurn
          (Engine.createInitialGameState rand))))
        ≠ totalKindCount c n (Engine.createInitialGameState rand)) := by
  refine ⟨C1_init_conservation rand, ?_⟩
  obtain ⟨hp, hq, hb, hst, hidx⟩ := createInitial_struct rand
  have hshlen : (shuffleTiles rand createTilePool).length = 106 := by
    rw [(shuffleTiles_perm rand createTilePool).length_eq]
    rfl
  have h50 : (Engine.createInitialGameState rand).pool.length = 50 := by
    rw [hq]
    simp only [List.length_drop]
    rw [hshlen]
  cases hpool : (Engine.createInitialGameState rand).pool with
  | nil => rw [hpool] at h50; simp at h50
  | cons t rest =>
    refine ⟨t.color, t.number, ?_⟩
    have hplen : (Engine.createInitialGameState rand).currentPlayerIndex <
        (Engine.createInitialGameState rand).players.length := by
      rw [hidx, hp]
      simp
    rw [drawCancel_counts _ t rest hpool hplen]
    unfold totalKindCount
    rw [hb, hst, hpool]
    simp only [List.map_nil, List.sum_nil]
    have hcons : countKind t.color t.number (t :: rest) =
        countKind t.color t.number rest + 1 := by
      simp [countKind, List.countP_cons]
    omega

end TileRummy
